import Mathlib

/-!
# Terminal animations: Christmas tree, skyline fireworks, sunset

A shallow embedding of the procedural parts of the three programs
`christmas/xmas.c`, `new_years/skyline_fireworks.c` and `sunset/sunset.c`,
followed by theorems about them.

Conventions of the embedding.

* A C `int` is a Lean `Int`.  Terminal geometry is far below `2^31`, so the
  signed arithmetic on it is taken without wrap-around; the one place where
  the source computes in `unsigned int` (the ornament hash) wraps modulo
  `2^32` explicitly.
* C division and remainder truncate toward zero: `Int.tdiv` and `Int.tmod`.
* `rand()` is a stream of non-negative numbers.  A function that draws from it
  takes the stream and returns the rest of it.
* An integer remainder whose divisor is zero is a fault of the program; a
  function that may hit one returns `Option`, with `none` for the fault.
* An array passed with its length (`p, maxp`; `r, nr`; `s, n`) is the list of
  those entries; the length argument is the length of the list.
* Calls that only write a cell of the screen are recorded, where a theorem is
  about them, as a list of written cells; elsewhere they are left out, since
  they do not touch the state of the scene.
-/

namespace VibeCoding

/-- The stream of results of successive `rand()` calls. -/
abbrev Rng := Nat → Nat

/-- One call of `rand()`: the value returned and the remaining stream. -/
def rand (g : Rng) : Int × Rng := ((g 0 : Int), fun n => g (n + 1))

/-- The C remainder `a % b`: truncated, and a fault when `b` is zero. -/
def cmod (a b : Int) : Option Int := if b = 0 then none else some (a.tmod b)

/-- The C quotient `a / b`: truncated, and a fault when `b` is zero. -/
def cdiv (a b : Int) : Option Int := if b = 0 then none else some (a.tdiv b)

/-- The integers `lo, lo + 1, ..., hi - 1`, the values a counting `for` loop
visits. -/
def intRange (lo hi : Int) : List Int :=
  (List.range (hi - lo).toNat).map (fun (k : Nat) => lo + (k : Int))

/-- One `mvaddch(y, x, ch)` under colour pair `pair`. -/
structure Cell where
  y : Int
  x : Int
  ch : Char
  pair : Int
  deriving DecidableEq, Repr

/-- What one pass of a main loop does: leave the loop, or go on with a new
state. -/
inductive Loop (σ : Type) where
  | stop : Loop σ
  | next : σ → Loop σ

/-! ## new_years/skyline_fireworks.c -/

namespace Skyline

/-- The function `clampi` of skyline_fireworks.c. -/
def clampi (v lo hi : Int) : Int :=
  if v < lo then lo else if v > hi then hi else v

/-- The function `randi(lo, hi)`: `lo + rand() % (hi - lo + 1)`. -/
def randi (lo hi : Int) (g : Rng) : Option (Int × Rng) := do
  let m ← cmod (rand g).1 (hi - lo + 1)
  pure (lo + m, (rand g).2)

/-- The struct `Rocket`. -/
structure Rocket where
  x : Int
  y : Int
  vy : Int
  fuse : Int
  color : Int
  active : Int
  deriving DecidableEq, Repr

/-- The struct `Particle`. -/
structure Particle where
  x : Int
  y : Int
  vx : Int
  vy : Int
  ttl : Int
  color : Int
  active : Int
  deriving DecidableEq, Repr

/-- The function `fw_color()`: one of the five pairs `{4,5,6,7,2}`. -/
def fw_color (g : Rng) : Int × Rng :=
  ([4, 5, 6, 7, 2].getD ((rand g).1.tmod 5).toNat 0, (rand g).2)

/-- The function `spawn_rocket(r, cols, horizon_y)`. -/
def spawn_rocket (r : Rocket) (cols horizon_y : Int) (g : Rng) : Option (Rocket × Rng) := do
  let (x, g1) ← randi (cols.tdiv 6) ((cols * 5).tdiv 6) g
  let (fuse, g2) ← randi 3 (horizon_y.tdiv 3) g1
  let (c, g3) := fw_color g2
  pure ({ r with active := 1, x := x, y := horizon_y - 1, vy := -1, fuse := fuse, color := c }, g3)

/-- The compound literal of `explode`: a spark at the rocket's position, with
three draws for `vx`, `vy` and `ttl` (taken in the order they are written). -/
def newSpark (r : Rocket) (g : Rng) : Option (Particle × Rng) := do
  let (vx, g1) ← randi (-3) 3 g
  let (vy, g2) ← randi (-3) 3 g1
  let (ttl, g3) ← randi 12 30 g2
  pure ({ x := r.x, y := r.y, vx := vx, vy := vy, ttl := ttl,
          color := r.color, active := 1 }, g3)

/-- The inner loop of `explode`, `for (j = 0; j < maxp; j++)`, over the slots
`p[j..]`: the first slot with `!p[j].active` is overwritten by a new spark and
the loop breaks. -/
def explodeScan (r : Rocket) : List Particle → Rng → Option (List Particle × Rng)
  | [], g => some ([], g)
  | q :: qs, g =>
    if q.active = 0 then do
      let (s, g1) ← newSpark r g
      pure (s :: qs, g1)
    else do
      let (qs1, g1) ← explodeScan r qs g
      pure (q :: qs1, g1)

/-- The outer loop of `explode`, `for (i = 0; i < 80; i++)`, with the number of
rounds still to run. -/
def explodeRounds (r : Rocket) : Nat → List Particle → Rng → Option (List Particle × Rng)
  | 0, p, g => some (p, g)
  | k + 1, p, g => do
    let (p1, g1) ← explodeScan r p g
    explodeRounds r k p1 g1

/-- The function `explode(r, p, maxp)`, the pool being the list of its `maxp` slots. -/
def explode (r : Rocket) (p : List Particle) (g : Rng) : Option (List Particle × Rng) :=
  explodeRounds r 80 p g

/-- The first loop of `update_fireworks`: every active rocket moves by `vy`,
and one that has reached its fuse explodes into the pool and is switched off. -/
def ascend : List Rocket → List Particle → Rng → Option (List Rocket × List Particle × Rng)
  | [], p, g => some ([], p, g)
  | q :: qs, p, g =>
    if q.active = 0 then do
      let (qs1, p1, g1) ← ascend qs p g
      pure (q :: qs1, p1, g1)
    else
      let q1 := { q with y := q.y + q.vy }
      if q1.y ≤ q1.fuse then do
        let (p1, g1) ← explode q1 p g
        let (qs2, p2, g2) ← ascend qs p1 g1
        pure ({ q1 with active := 0 } :: qs2, p2, g2)
      else do
        let (qs1, p1, g1) ← ascend qs p g
        pure (q1 :: qs1, p1, g1)

/-- The body of the second loop of `update_fireworks` for one slot. -/
def stepSpark (q : Particle) : Particle :=
  if q.active = 0 then q
  else
    let q1 := { q with x := q.x + q.vx, y := q.y + q.vy, ttl := q.ttl - 1 }
    if q1.ttl ≤ 0 then { q1 with active := 0 } else q1

/-- The scan of the third part of `update_fireworks`: the first inactive slot
receives a new rocket and the loop breaks. -/
def launchScan (cols horizon_y : Int) : List Rocket → Rng → Option (List Rocket × Rng)
  | [], g => some ([], g)
  | q :: qs, g =>
    if q.active = 0 then do
      let (q1, g1) ← spawn_rocket q cols horizon_y g
      pure (q1 :: qs, g1)
    else do
      let (qs1, g1) ← launchScan cols horizon_y qs g
      pure (q :: qs1, g1)

/-- The third part of `update_fireworks`: `if (rand() % 8 == 0)` launch. -/
def launch (cols horizon_y : Int) (r : List Rocket) (g : Rng) : Option (List Rocket × Rng) :=
  if (rand g).1.tmod 8 = 0 then launchScan cols horizon_y r (rand g).2
  else some (r, (rand g).2)

/-- The function `update_fireworks(r, nr, p, np, cols, horizon_y)`. -/
def update_fireworks (r : List Rocket) (p : List Particle) (cols horizon_y : Int) (g : Rng) :
    Option (List Rocket × List Particle × Rng) := do
  let (r1, p1, g1) ← ascend r p g
  let p2 := p1.map stepSpark
  let (r2, g2) ← launch cols horizon_y r1 g1
  pure (r2, p2, g2)

/-- The computation of `horizon_y` from `rows` in `main`. -/
def horizon_y (rows : Int) : Int :=
  let base_horizon := (rows * 3).tdiv 5
  let orig_lake_rows := rows - (base_horizon + 1)
  let draw_lake_rows := if orig_lake_rows.tdiv 2 < 1 then 1 else orig_lake_rows.tdiv 2
  let h := rows - draw_lake_rows - 1
  if h < 1 then rows.tdiv 2 else h

/-- The scene of skyline_fireworks.c that one pass of the main loop changes:
the two pools.  (The buildings are fixed after start-up, and the boats, whose
positions are `float`, move independently of everything else.) -/
structure Scene where
  rows : Int
  cols : Int
  horizon : Int
  rockets : List Rocket
  particles : List Particle
  deriving DecidableEq, Repr

/-- The test `if (ch == 'q') break;` of `main`. -/
def quitKey (ch : Int) : Bool := ch == ('q'.toNat : Int)

/-- One pass of the `while (1)` of `main`, `ch` being what `getch()` returned.
`draw_lake` is given one `rand()` as its tick. -/
def frame (s : Scene) (ch : Int) (g : Rng) : Option (Loop (Scene × Rng)) :=
  if quitKey ch then some Loop.stop
  else do
    let (r1, p1, g1) ← update_fireworks s.rockets s.particles s.cols s.horizon g
    pure (Loop.next ({ s with rockets := r1, particles := p1 }, (rand g1).2))

/-- Number of active slots of a spark pool. -/
def activeCount (p : List Particle) : Nat := p.countP (fun q => q.active != 0)

/-- Number of inactive slots of a spark pool. -/
def inactiveCount (p : List Particle) : Nat := p.countP (fun q => q.active == 0)

/-- Number of slots that are inactive in `p` and active in `p1`. -/
def activatedCount (p p1 : List Particle) : Nat :=
  (p.zip p1).countP (fun ab => ab.1.active == 0 && ab.2.active != 0)

/-- How `explode` may change one slot: not at all, or from inactive to
active. -/
def Fill (a b : Particle) : Prop := a = b ∨ (a.active = 0 ∧ b.active = 1)

/-- How the first loop of `update_fireworks` may change one rocket slot: an
inactive slot is skipped; an active rocket moves by `vy` and, when it has then
reached its fuse, is switched off (after its explosion). -/
def Rise (q q1 : Rocket) : Prop :=
  (q.active = 0 ∧ q1 = q) ∨
  (q.active ≠ 0 ∧ q.fuse < q.y + q.vy ∧ q1 = { q with y := q.y + q.vy }) ∨
  (q.active ≠ 0 ∧ q.y + q.vy ≤ q.fuse ∧ q1 = { q with y := q.y + q.vy, active := 0 })

/-- A rocket for the examples: active, at column 40, row 12, fuse at row 5. -/
def sampleRocket : Rocket := { x := 40, y := 12, vy := -1, fuse := 5, color := 4, active := 1 }

/-- A free slot of the spark pool, as `main` initialises it. -/
def freeSlot : Particle := { x := 0, y := 0, vx := 0, vy := 0, ttl := 0, color := 0, active := 0 }

/-- A free slot of the rocket pool, as `main` initialises it. -/
def freeRocket : Rocket := { x := 0, y := 0, vy := 0, fuse := 0, color := 0, active := 0 }

/-- A live spark for the examples. -/
def liveSpark : Particle := { x := 3, y := 4, vx := 1, vy := -1, ttl := 9, color := 5, active := 1 }

/-- A pool of three slots for the examples: one live spark, two free slots. -/
def samplePool : List Particle := [liveSpark, freeSlot, freeSlot]

/-- A full rocket pool of two slots for the examples. -/
def fullRockets : List Rocket := [sampleRocket, { sampleRocket with x := 50, y := 9 }]

/-- The random stream of the examples: `rand()` returns 0 every time. -/
def zeros : Rng := fun _ => 0

end Skyline

/-! ## christmas/xmas.c -/

namespace Xmas

/-- The struct `Snowflake`. -/
structure Snowflake where
  x : Int
  y : Int
  speed : Int
  phase : Int
  ch : Char
  deriving DecidableEq, Repr

/-- The function `clampi` of xmas.c. -/
def clampi (v lo hi : Int) : Int :=
  if v < lo then lo else if v > hi then hi else v

/-- Conversion of an integer value to `unsigned int`. -/
def u32 (v : Int) : Int := v % 2 ^ 32

/-- The function `ornament_color_for_cell(x, y)`.  The two products are `int * unsigned`,
so the `int` is converted and the product wraps; the two shifts are `int`
shifts, converted when they are added to the unsigned sum; every sum wraps. -/
def ornament_color_for_cell (x y : Int) : Int :=
  let a := u32 (u32 x * 1103515245)
  let b := u32 (u32 y * 12345)
  let ab := u32 (a + b)
  let abc := u32 (ab + u32 (x <<< 16))
  let h := u32 (abc + u32 (y <<< 1))
  if h % 13 ≠ 0 then 0 else 2 + h % 5

/-- The hash as the specification words it: the sum
`x*1103515245 + y*12345 + (x<<16) + (y<<1)` reduced once modulo `2^32`. -/
def cellHash (x y : Int) : Int :=
  (x * 1103515245 + y * 12345 + (x <<< 16 : Int) + (y <<< 1 : Int)) % 2 ^ 32

/-- The cell written for column `x` of tree row `i` (screen row `y`):
garland, else ornament, else tree body.  `wave_x` is
`cx + lround((half * 0.75) * sin(i / 2.5 + frame * 0.08))`. -/
def treeCell (i wave_x y x : Int) : Cell :=
  let on_garland := decide ((x - wave_x).natAbs ≤ 0) && (i.tmod 2 == 0)
  let ornament_pair := ornament_color_for_cell x y
  if on_garland then { y := y, x := x, ch := '~', pair := 10 }
  else if ornament_pair ≠ 0 then { y := y, x := x, ch := 'o', pair := ornament_pair }
  else { y := y, x := x, ch := '^', pair := 1 }

/-- The body of the loop `for (i = 0; i < tree_height; i++)` of `draw_tree`.
The floating-point value `lround((half * 0.75) * sin(i / 2.5 + frame * 0.08))`
is `wave half i frame`. -/
def treeRow (rows cols frame : Int) (wave : Int → Int → Int → Int)
    (tree_height tree_base_width cx topy i : Int) : Option (List Cell) :=
  let y := topy + i
  if y < 0 ∨ y ≥ rows then some []
  else do
    let half0 ← cdiv (i * tree_base_width) (2 * tree_height)
    let half := clampi half0 1 (cols.tdiv 2 - 2)
    let left := cx - half
    let right := cx + half
    let wave_x := cx + wave half i frame
    pure ((intRange left (right + 1)).filterMap (fun x =>
      if x < 0 ∨ x ≥ cols then none else some (treeCell i wave_x y x)))

/-- The rows of the tree body, one after the other. -/
def treeBody (row : Int → Option (List Cell)) : List Int → Option (List Cell)
  | [] => some []
  | i :: rest => do
    let a ← row i
    let b ← treeBody row rest
    pure (a ++ b)

/-- The function `draw_tree(rows, cols, frame)`: the cells it writes, in order (star, tree
body, trunk, ground). -/
def draw_tree (rows cols frame : Int) (wave : Int → Int → Int → Int) : Option (List Cell) :=
  let tree_height := clampi ((rows * 2).tdiv 3) 10 (rows - 4)
  let tree_base_width := clampi tree_height 12 (cols - 4)
  let cx := cols.tdiv 2
  let topy := (rows - tree_height).tdiv 2
  let trunk_h := clampi (tree_height.tdiv 6) 2 5
  let trunk_w := clampi (tree_base_width.tdiv 8) 2 6
  let star_y := topy - 1
  let star : List Cell :=
    if star_y ≥ 0 then [{ y := star_y, x := cx, ch := '*', pair := 8 }] else []
  let trunk_top := topy + tree_height
  let trunk_left := cx - trunk_w.tdiv 2
  let trunk_right := trunk_left + trunk_w
  let trunk : List Cell :=
    (intRange trunk_top (trunk_top + trunk_h)).flatMap (fun y =>
      if y < 0 ∨ y ≥ rows then []
      else (intRange trunk_left (trunk_right + 1)).filterMap (fun x =>
        if x < 0 ∨ x ≥ cols then none else some { y := y, x := x, ch := '#', pair := 7 }))
  let ground_y := trunk_top + trunk_h
  let ground : List Cell :=
    if ground_y ≥ 0 ∧ ground_y < rows then
      (intRange 0 cols).map (fun x => { y := ground_y, x := x, ch := '_', pair := 9 })
    else []
  do
    let body ← treeBody (treeRow rows cols frame wave tree_height tree_base_width cx topy)
      (intRange 0 tree_height)
    pure (star ++ body ++ trunk ++ ground)

/-- The glyph chosen from `r = rand() % 6`. -/
def snowGlyph (r : Int) : Char := if r = 0 then '.' else if r ≤ 2 then '*' else '+'

/-- The body of the loop of `snow_init`: five draws for one flake. -/
def initFlake (rows cols : Int) (g : Rng) : Option (Snowflake × Rng) := do
  let x ← cmod (rand g).1 (if cols > 0 then cols else 1)
  let g1 := (rand g).2
  let y ← cmod (rand g1).1 (if rows > 0 then rows else 1)
  let g2 := (rand g1).2
  let speed := 1 + (rand g2).1.tmod 4
  let g3 := (rand g2).2
  let phase ← cmod (rand g3).1 speed
  let g4 := (rand g3).2
  let r := (rand g4).1.tmod 6
  pure ({ x := x, y := y, speed := speed, phase := phase, ch := snowGlyph r }, (rand g4).2)

/-- The function `snow_init(s, n, rows, cols)`: all `n` entries are overwritten, so the
result is a fresh list of `n` flakes. -/
def snow_init : Nat → Int → Int → Rng → Option (List Snowflake × Rng)
  | 0, _, _, g => some ([], g)
  | n + 1, rows, cols, g => do
    let (f, g1) ← initFlake rows cols g
    let (fs, g2) ← snow_init n rows cols g1
    pure (f :: fs, g2)

/-- The first part of the body of the loop of `snow_step`: `phase++`, and when
the phase has reached the speed a fall by one row with the drift. -/
def advance (f : Snowflake) (drift : Int) : Snowflake :=
  let f1 := { f with phase := f.phase + 1 }
  if f1.phase ≥ f1.speed then { f1 with phase := 0, y := f1.y + 1, x := f1.x + drift } else f1

/-- The two horizontal tests of `snow_step`, one after the other:
`if (x < 0) x = cols - 1; if (x >= cols) x = 0;`. -/
def wrapX (f : Snowflake) (cols : Int) : Snowflake :=
  let f1 := if f.x < 0 then { f with x := cols - 1 } else f
  if f1.x ≥ cols then { f1 with x := 0 } else f1

/-- The block `if (y >= rows) { ... }` of `snow_step`: the flake restarts in
row 0 with four draws. -/
def recycle (cols : Int) (g : Rng) : Option (Snowflake × Rng) := do
  let x ← cmod (rand g).1 (if cols > 0 then cols else 1)
  let g1 := (rand g).2
  let speed := 1 + (rand g1).1.tmod 4
  let g2 := (rand g1).2
  let phase ← cmod (rand g2).1 speed
  let g3 := (rand g2).2
  let r := (rand g3).1.tmod 6
  pure ({ x := x, y := 0, speed := speed, phase := phase, ch := snowGlyph r }, (rand g3).2)

/-- The body of the loop of `snow_step` for one flake. -/
def stepFlake (f : Snowflake) (rows cols : Int) (g : Rng) : Option (Snowflake × Rng) :=
  let drift := (rand g).1.tmod 3 - 1
  let f1 := wrapX (advance f drift) cols
  if f1.y ≥ rows then recycle cols (rand g).2 else some (f1, (rand g).2)

/-- The function `snow_step(s, n, rows, cols, frame)`. -/
def snow_step : List Snowflake → Int → Int → Int → Rng → Option (List Snowflake × Rng)
  | [], _, _, _, g => some ([], g)
  | f :: fs, rows, cols, frame, g => do
    let (f1, g1) ← stepFlake f rows cols g
    let (fs1, g2) ← snow_step fs rows cols frame g1
    pure (f1 :: fs1, g2)

/-- The function `snow_draw(s, n, rows, cols)`: the cells it writes. -/
def snow_draw (s : List Snowflake) (rows cols : Int) : List Cell :=
  s.filterMap (fun f =>
    if f.x ≥ 0 ∧ f.x < cols ∧ f.y ≥ 0 ∧ f.y < rows then
      some { y := f.y, x := f.x, ch := f.ch, pair := 9 }
    else none)

/-- The variables of `main` of xmas.c. -/
structure Scene where
  rows : Int
  cols : Int
  snow_n : Int
  snow : List Snowflake
  frame : Int
  deriving DecidableEq, Repr

/-- How `main` reaches its loop: it returns 1 when `calloc` gave nothing,
otherwise it enters the loop with a scene. -/
inductive Start where
  | exit : Int → Start
  | run : Scene → Rng → Start

/-- The part of `main` before the loop, on a terminal of `rows` by `cols`; `callocOk` tells
whether `calloc` returned a buffer. -/
def start (rows cols : Int) (callocOk : Bool) (g : Rng) : Option Start :=
  let snow_n := clampi ((rows * cols).tdiv 80) 60 600
  if !callocOk then some (Start.exit 1)
  else do
    let (snow, g1) ← snow_init snow_n.toNat rows cols g
    pure (Start.run { rows := rows, cols := cols, snow_n := snow_n, snow := snow, frame := 0 } g1)

/-- What one pass of the loop reads from outside: the key, the terminal size,
and whether `realloc` would return a buffer. -/
structure Input where
  ch : Int
  new_rows : Int
  new_cols : Int
  reallocOk : Bool
  deriving DecidableEq, Repr

/-- The test `if (ch == 'q' || ch == 'Q') break;` of `main`. -/
def quitKey (ch : Int) : Bool := ch == ('q'.toNat : Int) || ch == ('Q'.toNat : Int)

/-- The resize block of the loop: on a changed size `rows` and `cols` are
updated; the pool is resized and reseeded when `realloc` succeeds and kept as
it is when `realloc` fails. -/
def resize (s : Scene) (i : Input) (g : Rng) : Option (Scene × Rng) :=
  if i.new_rows ≠ s.rows ∨ i.new_cols ≠ s.cols then
    let s1 := { s with rows := i.new_rows, cols := i.new_cols }
    let new_snow_n := clampi ((s1.rows * s1.cols).tdiv 80) 60 600
    if i.reallocOk then do
      let (snow, g1) ← snow_init new_snow_n.toNat s1.rows s1.cols g
      pure ({ s1 with snow := snow, snow_n := new_snow_n }, g1)
    else some (s1, g)
  else some (s, g)

/-- One pass of the `while (1)` of `main`: the new scene, the remaining random
stream and the cells written by `draw_tree` and `snow_draw`. -/
def frame (s : Scene) (i : Input) (wave : Int → Int → Int → Int) (g : Rng) :
    Option (Loop (Scene × Rng × List Cell)) :=
  if quitKey i.ch then some Loop.stop
  else do
    let (s1, g1) ← resize s i g
    let tree ← draw_tree s1.rows s1.cols s1.frame wave
    let (snow, g2) ← snow_step s1.snow s1.rows s1.cols s1.frame g1
    let flakes := snow_draw snow s1.rows s1.cols
    pure (Loop.next ({ s1 with snow := snow, frame := s1.frame + 1 }, g2, tree ++ flakes))

/-- The random stream of the examples: `rand()` returns 0 every time. -/
def zeros : Rng := fun _ => 0

/-- A flake in the bottom row of a 24-row terminal that falls on every step. -/
def bottomFlake : Snowflake := { x := 5, y := 23, speed := 1, phase := 0, ch := '*' }

/-- A scene on a 24 by 80 terminal, with its 60 flakes. -/
def sampleScene : Scene :=
  { rows := 24, cols := 80, snow_n := 60, snow := List.replicate 60 bottomFlake, frame := 0 }

/-- A pass of the loop that finds the terminal resized to 100 by 200, with
`realloc` succeeding. -/
def grownInput : Input := { ch := -1, new_rows := 100, new_cols := 200, reallocOk := true }

/-- The same resize with `realloc` failing. -/
def failedInput : Input := { ch := -1, new_rows := 100, new_cols := 200, reallocOk := false }

end Xmas

/-! ## sunset/sunset.c -/

namespace Sunset

/-- The constant `STAR_COUNT`. -/
def STAR_COUNT : Nat := 150

/-- The constant `CYCLE_SECONDS`. -/
def CYCLE_SECONDS : Nat := 140

/-- The struct `Star`. -/
structure Star where
  x : Int
  y : Int
  bright : Int
  deriving DecidableEq, Repr

/-- The body of the loop of `seed_stars`: `rand() % w`, `rand() % (h/2)`,
`rand() % 100`. -/
def seedStar (w h : Int) (g : Rng) : Option (Star × Rng) := do
  let x ← cmod (rand g).1 w
  let g1 := (rand g).2
  let y ← cmod (rand g1).1 (h.tdiv 2)
  let g2 := (rand g1).2
  let bright := (rand g2).1.tmod 100
  pure ({ x := x, y := y, bright := bright }, (rand g2).2)

/-- The loop of `seed_stars` with the number of stars still to seed. -/
def seedLoop (w h : Int) : Nat → Rng → Option (List Star × Rng)
  | 0, g => some ([], g)
  | n + 1, g => do
    let (s, g1) ← seedStar w h g
    let (rest, g2) ← seedLoop w h n g1
    pure (s :: rest, g2)

/-- The function `seed_stars(w, h)`: the new contents of `stars`.  The function reseeds the
generator first, so `g` is the stream that follows `srand(time(NULL))`. -/
def seed_stars (w h : Int) (g : Rng) : Option (List Star) :=
  (seedLoop w h STAR_COUNT g).map (fun r => r.1)

/-- The test `if (ch == 'q' || ch == 'Q') break;` of `main`. -/
def quitKey (ch : Int) : Bool := ch == ('q'.toNat : Int) || ch == ('Q'.toNat : Int)

/-- The variables of `main` of sunset.c that outlive a pass of the loop. -/
structure Scene where
  w : Int
  h : Int
  stars : List Star
  deriving DecidableEq, Repr

/-- The part of `main` before the loop, on a terminal `w` wide and `h` high. -/
def start (w h : Int) (g : Rng) : Option Scene := do
  let stars ← seed_stars w h g
  pure { w := w, h := h, stars := stars }

/-- One pass of the `while (1)` of `main`: `nh`, `nw` is the terminal size it
reads and `ch` the key polled at the end of the pass.  The drawing in between,
which is floating point and changes nothing of the scene, is left out. -/
def frame (s : Scene) (nh nw ch : Int) (g : Rng) : Option (Loop Scene) := do
  let s1 ← if nh ≠ s.h ∨ nw ≠ s.w then
      (seed_stars nw nh g).map (fun stars => { w := nw, h := nh, stars := stars })
    else some s
  pure (if quitKey ch then Loop.stop else Loop.next s1)

/-- The line `angle = M_PI * (1.0 - 2.0*t)` of `main`, over the reals. -/
noncomputable def angle (t : ℝ) : ℝ := Real.pi * (1 - 2 * t)

/-- The line `sun_y_norm = (sin(angle) + 1.0) / 2.0` of `main`, over the reals. -/
noncomputable def sun_y_norm (t : ℝ) : ℝ := (Real.sin (angle t) + 1) / 2

/-- The line `darkness = 1.0 - sun_y_norm` of `main`, over the reals, as a
function of the phase `t`. -/
noncomputable def darkness (t : ℝ) : ℝ := 1 - sun_y_norm t

/-- The line `t = fmod(elapsed, CYCLE_SECONDS) / CYCLE_SECONDS` of `main`, over
the reals, for a non-negative elapsed time. -/
noncomputable def phase (elapsed : ℝ) : ℝ :=
  (elapsed - CYCLE_SECONDS * ⌊elapsed / CYCLE_SECONDS⌋) / CYCLE_SECONDS

end Sunset

/-! ## The three `main` functions as runs over finitely many passes -/

/-- How a run of a `main` over finitely many passes of its loop ends: with a
fault, still inside the loop, or returned with an exit code; the last two
carry the screen calls the loop has made so far, in order. -/
inductive Outcome (κ : Type) where
  | fault : Outcome κ
  | running : List κ → Outcome κ
  | exited : Int → List κ → Outcome κ

namespace Xmas

/-- The calls on the screen that the loop of `main` of xmas.c makes. -/
inductive ScreenCall where
  | erase
  | draw_tree
  | snow_draw
  | mvprintw
  | refresh
  deriving DecidableEq, Repr

/-- The screen calls of one full pass of the loop, in order. -/
def passCalls : List ScreenCall :=
  [ScreenCall.erase, ScreenCall.draw_tree, ScreenCall.snow_draw, ScreenCall.mvprintw,
   ScreenCall.refresh]

/-- The `while (1)` of `main` over the passes whose inputs are listed; a
`break` leads to `free`, `endwin` and `return 0`. -/
def loop (wave : Int → Int → Int → Int) :
    List Input → Scene → Rng → List ScreenCall → Outcome ScreenCall
  | [], _, _, log => Outcome.running log
  | i :: rest, s, g, log =>
    match frame s i wave g with
    | none => Outcome.fault
    | some Loop.stop => Outcome.exited 0 log
    | some (Loop.next (s1, g1, _)) => loop wave rest s1 g1 (log ++ passCalls)

/-- The function `main` of xmas.c on a terminal of `rows` by `cols`. -/
def main (rows cols : Int) (callocOk : Bool) (g : Rng) (wave : Int → Int → Int → Int)
    (inputs : List Input) : Outcome ScreenCall :=
  match start rows cols callocOk g with
  | none => Outcome.fault
  | some (Start.exit code) => Outcome.exited code []
  | some (Start.run s g1) => loop wave inputs s g1 []

end Xmas

namespace Skyline

/-- The struct `Building`; `lights` is `none` for the `NULL` pointer. -/
structure Building where
  x0 : Int
  w : Int
  h : Int
  is_tower : Int
  light_rows : Int
  light_cols : Int
  lights : Option (List Int)
  deriving DecidableEq, Repr

/-- The two nested loops of `init_skyline_layout` that fill `lights`, row-major:
one `(rand() % 100) < 55` per cell, for the number of cells given. -/
def lightGrid : Nat → Rng → List Int × Rng
  | 0, g => ([], g)
  | n + 1, g =>
    ((if (rand g).1.tmod 100 < 55 then 1 else 0) :: (lightGrid n (rand g).2).1,
      (lightGrid n (rand g).2).2)

/-- The body of the loop of `init_skyline_layout` for building `i` of `n`;
`mallocOk` tells whether `malloc` returns a buffer for its lights. -/
def initBuilding (i n cols horizon_y base_h : Int) (mallocOk : Bool) (g : Rng) :
    Option (Building × Rng) := do
  let cx ← cdiv (cols * (i + 1)) (n + 1)
  let (r1, g1) ← randi (-1) 3 g
  let w0 := clampi (cols.tdiv 14 + r1) 6 16
  let (r2, g2) ← randi (-3) 6 g1
  let h0 := clampi (base_h + r2) 6 ((horizon_y * 2).tdiv 3)
  let is_tower : Int := if i = n.tdiv 2 then 1 else 0
  let w := if is_tower ≠ 0 then clampi (cols.tdiv 18) 6 12 else w0
  let h := if is_tower ≠ 0 then clampi (horizon_y - 6) 10 (horizon_y - 3) else h0
  let interior_h := if h - 2 < 1 then 0 else h - 2
  let interior_w := if w - 2 < 1 then 0 else w - 2
  let b : Building := { x0 := cx - w.tdiv 2, w := w, h := h, is_tower := is_tower,
                        light_rows := interior_h, light_cols := interior_w, lights := none }
  if interior_h > 0 ∧ interior_w > 0 then
    if mallocOk then
      pure ({ b with lights := some (lightGrid (interior_h * interior_w).toNat g2).1 },
        (lightGrid (interior_h * interior_w).toNat g2).2)
    else pure (b, g2)
  else pure (b, g2)

/-- The loop of `init_skyline_layout` over the building indices listed. -/
def layoutLoop (n cols horizon_y base_h : Int) (mallocOk : Nat → Bool) :
    List Nat → Rng → Option (List Building × Rng)
  | [], g => some ([], g)
  | i :: rest, g => do
    let (b, g1) ← initBuilding (i : Int) n cols horizon_y base_h (mallocOk i) g
    let (bs, g2) ← layoutLoop n cols horizon_y base_h mallocOk rest g1
    pure (b :: bs, g2)

/-- The function `init_skyline_layout(b, n, cols, horizon_y)`: the `n` buildings
it writes. -/
def init_skyline_layout (n : Nat) (cols horizon_y : Int) (mallocOk : Nat → Bool) (g : Rng) :
    Option (List Building × Rng) :=
  layoutLoop (n : Int) cols horizon_y (clampi (horizon_y.tdiv 2) 6 (horizon_y - 3)) mallocOk
    (List.range n) g

/-- The loop of `main` that places the boats: one `randi(0, cols)` per boat,
kept as the boat's starting column (its `float` speed is left out). -/
def initBoats (cols : Int) : Nat → Rng → Option (List Int × Rng)
  | 0, g => some ([], g)
  | n + 1, g => do
    let (x, g1) ← randi 0 cols g
    let (xs, g2) ← initBoats cols n g1
    pure (x :: xs, g2)

/-- The part of `main` before the loop: horizon, nine buildings, four boats,
ten free rocket slots and five hundred free spark slots. -/
def start (rows cols : Int) (mallocOk : Nat → Bool) (g : Rng) :
    Option (List Building × List Int × Scene × Rng) := do
  let (buildings, g1) ← init_skyline_layout 9 cols (horizon_y rows) mallocOk g
  let (boats, g2) ← initBoats cols 4 g1
  pure (buildings, boats,
    { rows := rows, cols := cols, horizon := horizon_y rows,
      rockets := List.replicate 10 freeRocket, particles := List.replicate 500 freeSlot }, g2)

/-- The calls on the screen that the loop of `main` of skyline_fireworks.c
makes. -/
inductive ScreenCall where
  | erase
  | draw_skyline
  | update_fireworks
  | draw_lake
  | update_boats
  | refresh
  deriving DecidableEq, Repr

/-- The screen calls of one full pass of the loop, in order. -/
def passCalls : List ScreenCall :=
  [ScreenCall.erase, ScreenCall.draw_skyline, ScreenCall.update_fireworks,
   ScreenCall.draw_lake, ScreenCall.update_boats, ScreenCall.refresh]

/-- The `while (1)` of `main` over the passes whose polled keys are listed; a
`break` leads to `endwin` and `return 0`. -/
def loop : List Int → Scene → Rng → List ScreenCall → Outcome ScreenCall
  | [], _, _, log => Outcome.running log
  | ch :: rest, s, g, log =>
    match frame s ch g with
    | none => Outcome.fault
    | some Loop.stop => Outcome.exited 0 log
    | some (Loop.next (s1, g1)) => loop rest s1 g1 (log ++ passCalls)

/-- The function `main` of skyline_fireworks.c on a terminal of `rows` by
`cols`. -/
def main (rows cols : Int) (mallocOk : Nat → Bool) (g : Rng) (keys : List Int) :
    Outcome ScreenCall :=
  match start rows cols mallocOk g with
  | none => Outcome.fault
  | some (_, _, s, g1) => loop keys s g1 []

/-- What `explode` writes into a slot it activates: a spark at the rocket's
position, in the rocket's colour, with both velocities in `[-3, 3]` and a
time-to-live in `[12, 30]`. -/
def IsSpark (r : Rocket) (b : Particle) : Prop :=
  b.x = r.x ∧ b.y = r.y ∧ b.color = r.color ∧ -3 ≤ b.vx ∧ b.vx ≤ 3 ∧ -3 ≤ b.vy ∧ b.vy ≤ 3 ∧
    12 ≤ b.ttl ∧ b.ttl ≤ 30 ∧ b.active = 1

/-- How `explode` for rocket `r` may change one slot: not at all, or from
inactive to a spark of `r`. -/
def FillWith (r : Rocket) (a b : Particle) : Prop := a = b ∨ (a.active = 0 ∧ IsSpark r b)

end Skyline

namespace Sunset

/-- The calls on the screen that the loop of `main` of sunset.c makes. -/
inductive ScreenCall where
  | draw_sky
  | draw_sun
  | draw_moon
  | draw_stars
  | draw_mountains
  | mvwprintw
  | overwrite
  | wrefresh
  deriving DecidableEq, Repr

/-- The screen calls of one pass of the loop, in order; all of them come
before the `getch()` of the pass. -/
def passCalls : List ScreenCall :=
  [ScreenCall.draw_sky, ScreenCall.draw_sun, ScreenCall.draw_moon, ScreenCall.draw_stars,
   ScreenCall.draw_mountains, ScreenCall.mvwprintw, ScreenCall.overwrite, ScreenCall.wrefresh]

/-- What one pass of the loop of sunset.c reads from outside: the terminal
size, the key polled at the end of the pass, and the random stream a reseeding
would start. -/
structure Input where
  nh : Int
  nw : Int
  ch : Int
  g : Rng

/-- The `while (1)` of `main` over the passes whose inputs are listed; a pass
draws before it polls the key, and a `break` leads to `delwin`, `endwin` and
`return 0`. -/
def loop : List Input → Scene → List ScreenCall → Outcome ScreenCall
  | [], _, log => Outcome.running log
  | i :: rest, s, log =>
    match frame s i.nh i.nw i.ch i.g with
    | none => Outcome.fault
    | some Loop.stop => Outcome.exited 0 (log ++ passCalls)
    | some (Loop.next s1) => loop rest s1 (log ++ passCalls)

/-- The function `main` of sunset.c on a terminal `w` wide and `h` high. -/
def main (w h : Int) (g : Rng) (inputs : List Input) : Outcome ScreenCall :=
  match start w h g with
  | none => Outcome.fault
  | some s => loop inputs s []

/-- The random stream of the examples: `rand()` returns 0 every time. -/
def zeros : Rng := fun _ => 0

end Sunset

end VibeCoding

/-! # Theorems -/

namespace VibeCoding

theorem rand_nonneg (g : Rng) : 0 ≤ (rand g).1 := by
  simp [rand]

theorem cmod_of_ne (a b : Int) (h : b ≠ 0) : cmod a b = some (a.tmod b) := by
  simp [cmod, h]

theorem tdiv_cases (a c : Int) (hc : 0 < c) :
    (0 ≤ a ∧ a.tdiv c = a / c) ∨ (a < 0 ∧ a.tdiv c = -((-a) / c)) := by
  by_cases ha : 0 ≤ a
  · exact Or.inl ⟨ha, Int.tdiv_eq_ediv ha (le_of_lt hc)⟩
  · right
    refine ⟨by omega, ?_⟩
    have h := Int.neg_tdiv (-a) c
    rw [neg_neg] at h
    rw [h, Int.tdiv_eq_ediv (by omega) (le_of_lt hc)]


namespace Skyline

theorem randi_of_le (lo hi : Int) (g : Rng) (h : lo ≤ hi) :
    randi lo hi g = some (lo + (rand g).1.tmod (hi - lo + 1), (rand g).2) := by
  have h0 : hi - lo + 1 ≠ 0 := by omega
  simp [randi, cmod, h0]

theorem newSpark_some (r : Rocket) (g : Rng) :
    ∃ s g1, newSpark r g = some (s, g1) ∧ s.active = 1 := by
  simp [newSpark, randi_of_le]

theorem fill_refl (p : List Particle) : List.Forall₂ Fill p p := by
  induction p with
  | nil => exact List.Forall₂.nil
  | cons a as ih => exact List.Forall₂.cons (Or.inl rfl) ih

theorem fill_trans {p p1 p2 : List Particle} (h1 : List.Forall₂ Fill p p1)
    (h2 : List.Forall₂ Fill p1 p2) : List.Forall₂ Fill p p2 := by
  induction h1 generalizing p2 with
  | nil => exact h2
  | cons hab _ ih =>
    cases h2 with
    | cons hbc hrest =>
      refine List.Forall₂.cons ?_ (ih hrest)
      rcases hab with rfl | ⟨ha, hb⟩
      · exact hbc
      · rcases hbc with rfl | ⟨hb0, _⟩
        · exact Or.inr ⟨ha, hb⟩
        · omega

theorem explodeScan_spec (r : Rocket) (p : List Particle) (g : Rng) :
    ∃ p1 g1, explodeScan r p g = some (p1, g1) ∧ List.Forall₂ Fill p p1 ∧
      inactiveCount p1 = inactiveCount p - 1 := by
  induction p with
  | nil => exact ⟨[], g, rfl, List.Forall₂.nil, rfl⟩
  | cons q qs ih =>
    by_cases hq : q.active = 0
    · obtain ⟨s, g1, hs, hact⟩ := newSpark_some r g
      refine ⟨s :: qs, g1, ?_, List.Forall₂.cons (Or.inr ⟨hq, hact⟩) (fill_refl qs), ?_⟩
      · simp [explodeScan, hq, hs]
      · simp [inactiveCount, List.countP_cons, hq, hact]
    · obtain ⟨qs1, g1, hs, hfill, hcnt⟩ := ih
      refine ⟨q :: qs1, g1, ?_, List.Forall₂.cons (Or.inl rfl) hfill, ?_⟩
      · simp [explodeScan, hq, hs]
      · simp only [inactiveCount] at hcnt ⊢
        simp [List.countP_cons, hq, hcnt]

theorem explodeRounds_spec (r : Rocket) (k : Nat) (p : List Particle) (g : Rng) :
    ∃ p1 g1, explodeRounds r k p g = some (p1, g1) ∧ List.Forall₂ Fill p p1 ∧
      inactiveCount p1 = inactiveCount p - k := by
  induction k generalizing p g with
  | zero => exact ⟨p, g, rfl, fill_refl p, rfl⟩
  | succ k ih =>
    obtain ⟨p1, g1, hs, hfill, hcnt⟩ := explodeScan_spec r p g
    obtain ⟨p2, g2, hs2, hfill2, hcnt2⟩ := ih p1 g1
    refine ⟨p2, g2, ?_, fill_trans hfill hfill2, ?_⟩
    · simp [explodeRounds, hs, hs2]
    · omega

theorem fill_counts {p p1 : List Particle} (h : List.Forall₂ Fill p p1) :
    p1.length = p.length ∧
      activatedCount p p1 + inactiveCount p1 = inactiveCount p ∧
      activeCount p1 = activeCount p + activatedCount p p1 := by
  induction h with
  | nil => exact ⟨rfl, rfl, rfl⟩
  | @cons a b l l1 hab _ ih =>
    obtain ⟨hlen, hin, hact⟩ := ih
    simp only [activatedCount, inactiveCount, activeCount] at hin hact ⊢
    rcases hab with rfl | ⟨ha, hb⟩
    · by_cases h0 : a.active = 0
      · simp [List.countP_cons, h0, hlen]
        omega
      · simp [List.countP_cons, h0, hlen]
        omega
    · simp [List.countP_cons, ha, hb, hlen]
      omega

theorem fill_keeps_active {p p1 : List Particle} (h : List.Forall₂ Fill p p1) :
    ∀ (j : Nat) (q : Particle), p[j]? = some q → q.active ≠ 0 → p1[j]? = some q := by
  induction h with
  | nil => intro j q hq; simp at hq
  | @cons a b l l1 hab _ ih =>
    intro j q hq hact
    cases j with
    | zero =>
      simp at hq
      subst hq
      rcases hab with rfl | ⟨ha, _⟩
      · simp
      · exact absurd ha hact
    | succ j =>
      simp at hq ⊢
      exact ih j q hq hact

/-- C1: for every rocket, random stream and spark pool `p` of capacity `maxp`,
`explode` returns a pool of the same capacity in which exactly
`min 80 k` slots that were inactive are now active (`k` the number of inactive
slots of `p`), every slot that was active is unchanged, and the number of
active sparks, which has grown by `min 80 k`, is at most `maxp`. -/
theorem explode_activates_min (r : Rocket) (p : List Particle) (maxp : Nat) (g : Rng)
    (hcap : p.length = maxp) :
    ∃ p1 g1, explode r p g = some (p1, g1) ∧ p1.length = maxp ∧
      activatedCount p p1 = min 80 (inactiveCount p) ∧
      (∀ (j : Nat) (q : Particle), p[j]? = some q → q.active ≠ 0 → p1[j]? = some q) ∧
      activeCount p1 = activeCount p + min 80 (inactiveCount p) ∧
      activeCount p1 ≤ maxp := by
  obtain ⟨p1, g1, hs, hfill, hcnt⟩ := explodeRounds_spec r 80 p g
  obtain ⟨hlen, hin, hact⟩ := fill_counts hfill
  have hle : activeCount p1 ≤ p1.length := List.countP_le_length _
  refine ⟨p1, g1, hs, by omega, by omega, fill_keeps_active hfill, by omega, by omega⟩

theorem explode_activates_min_witness :
    samplePool.length = 3 ∧
    ∃ p1 g1, explode sampleRocket samplePool zeros = some (p1, g1) ∧ p1.length = 3 ∧
      activatedCount samplePool p1 = min 80 (inactiveCount samplePool) ∧
      (∀ (j : Nat) (q : Particle), samplePool[j]? = some q → q.active ≠ 0 → p1[j]? = some q) ∧
      activeCount p1 = activeCount samplePool + min 80 (inactiveCount samplePool) ∧
      activeCount p1 ≤ 3 :=
  ⟨rfl, explode_activates_min sampleRocket samplePool 3 zeros rfl⟩

end Skyline

namespace Xmas

theorem width_ne_zero (cols : Int) : (if cols > 0 then cols else 1) ≠ 0 := by
  split <;> omega

theorem speed_ne_zero (g : Rng) : 1 + (rand g).1.tmod 4 ≠ 0 := by
  have h := Int.tmod_nonneg 4 (rand_nonneg g)
  omega

theorem initFlake_some (rows cols : Int) (g : Rng) :
    ∃ f g1, initFlake rows cols g = some (f, g1) := by
  simp [initFlake, cmod_of_ne _ _ (width_ne_zero cols), cmod_of_ne _ _ (width_ne_zero rows),
    cmod_of_ne _ _ (speed_ne_zero _)]

theorem snow_init_some (n : Nat) (rows cols : Int) (g : Rng) :
    ∃ s g1, snow_init n rows cols g = some (s, g1) ∧ s.length = n := by
  induction n generalizing g with
  | zero => exact ⟨[], g, rfl, rfl⟩
  | succ n ih =>
    obtain ⟨f, g1, hf⟩ := initFlake_some rows cols g
    obtain ⟨s, g2, hs, hlen⟩ := ih g1
    exact ⟨f :: s, g2, by simp [snow_init, hf, hs], by simp [hlen]⟩

theorem clampi_bounds (v lo hi : Int) (h : lo ≤ hi) :
    lo ≤ clampi v lo hi ∧ clampi v lo hi ≤ hi := by
  unfold clampi
  split
  · omega
  · split <;> omega

/-- C2, as the code has it: `main` enters its loop with
`snow_n = clampi(rows*cols/80, 60, 600)` and a pool of exactly `snow_n` flakes,
the ones `snow_init` makes (and returns 1 when `calloc` fails); a resize to
`new_rows` by `new_cols` always updates `rows` and `cols` and keeps the frame
counter; when `realloc` succeeds it sets `snow_n` to
`clampi(new_rows*new_cols/80, 60, 600)` and the pool becomes exactly `snow_n`
flakes made by `snow_init` for the new size; when `realloc` fails `snow_n`, the
pool and the random stream are left as they were; a pass that finds the size
unchanged changes nothing; `snow_n` stays between 60 and 600 throughout. -/
theorem snow_n_startup_and_resize :
    (∀ (rows cols : Int) (g : Rng), ∃ s g1,
      start rows cols true g = some (Start.run s g1) ∧ s.rows = rows ∧ s.cols = cols ∧
      s.frame = 0 ∧ s.snow_n = clampi ((rows * cols).tdiv 80) 60 600 ∧
      60 ≤ s.snow_n ∧ s.snow_n ≤ 600 ∧ (s.snow.length : Int) = s.snow_n ∧
      snow_init s.snow_n.toNat rows cols g = some (s.snow, g1)) ∧
    (∀ (rows cols : Int) (g : Rng), start rows cols false g = some (Start.exit 1)) ∧
    (∀ (s : Scene) (i : Input) (g : Rng), (i.new_rows ≠ s.rows ∨ i.new_cols ≠ s.cols) →
      ∃ s1 g1, resize s i g = some (s1, g1) ∧ s1.rows = i.new_rows ∧ s1.cols = i.new_cols ∧
        s1.frame = s.frame ∧
        s1.snow_n = (if i.reallocOk then clampi ((i.new_rows * i.new_cols).tdiv 80) 60 600
          else s.snow_n) ∧
        (i.reallocOk = true → (s1.snow.length : Int) = s1.snow_n ∧
          snow_init s1.snow_n.toNat i.new_rows i.new_cols g = some (s1.snow, g1)) ∧
        (i.reallocOk = false → s1.snow = s.snow ∧ g1 = g) ∧
        (60 ≤ s.snow_n ∧ s.snow_n ≤ 600 → 60 ≤ s1.snow_n ∧ s1.snow_n ≤ 600)) ∧
    (∀ (s : Scene) (i : Input) (g : Rng), i.new_rows = s.rows → i.new_cols = s.cols →
      resize s i g = some (s, g)) := by
  refine ⟨?_, ?_, ?_, ?_⟩
  · intro rows cols g
    obtain ⟨snow, g1, hs, hlen⟩ :=
      snow_init_some (clampi ((rows * cols).tdiv 80) 60 600).toNat rows cols g
    have hb := clampi_bounds ((rows * cols).tdiv 80) 60 600 (by norm_num)
    refine ⟨Scene.mk rows cols (clampi ((rows * cols).tdiv 80) 60 600) snow 0, g1,
      by simp [start, hs], rfl, rfl, rfl, rfl, hb.1, hb.2, ?_, hs⟩
    simp only [hlen]
    omega
  · intro rows cols g
    simp [start]
  · intro s i g hchg
    have hb := clampi_bounds ((i.new_rows * i.new_cols).tdiv 80) 60 600 (by norm_num)
    cases hre : i.reallocOk with
    | true =>
      obtain ⟨snow, g1, hs, hlen⟩ :=
        snow_init_some (clampi ((i.new_rows * i.new_cols).tdiv 80) 60 600).toNat
          i.new_rows i.new_cols g
      refine ⟨Scene.mk i.new_rows i.new_cols
        (clampi ((i.new_rows * i.new_cols).tdiv 80) 60 600) snow s.frame, g1,
        by simp [resize, hchg, hre, hs], rfl, rfl, rfl, by simp, ?_, ?_, fun _ => hb⟩
      · intro _
        refine ⟨?_, hs⟩
        simp only [hlen]
        omega
      · intro hfalse
        exact absurd hfalse (by decide)
    | false =>
      refine ⟨Scene.mk i.new_rows i.new_cols s.snow_n s.snow s.frame, g,
        by simp [resize, hchg, hre], rfl, rfl, rfl, by simp, ?_, fun _ => ⟨rfl, rfl⟩, fun h => h⟩
      intro htrue
      exact absurd htrue (by decide)
  · intro s i g hr hc
    have hno : ¬ (i.new_rows ≠ s.rows ∨ i.new_cols ≠ s.cols) := by
      rw [hr, hc]
      simp
    simp [resize, hno]

theorem snow_n_startup_and_resize_witness :
    (grownInput.new_rows ≠ sampleScene.rows ∨ grownInput.new_cols ≠ sampleScene.cols) ∧
    grownInput.reallocOk = true ∧
    ∃ s1 g1, resize sampleScene grownInput zeros = some (s1, g1) ∧
      s1.rows = 100 ∧ s1.cols = 200 ∧ s1.frame = 0 ∧ s1.snow_n = 250 ∧
      (s1.snow.length : Int) = 250 ∧
      snow_init 250 100 200 zeros = some (s1.snow, g1) := by
  obtain ⟨s1, g1, hres, hrows, hcols, hframe, hn, hok, _, _⟩ :=
    snow_n_startup_and_resize.2.2.1 sampleScene grownInput zeros (Or.inl (by decide))
  have h250 : clampi ((grownInput.new_rows * grownInput.new_cols).tdiv 80) 60 600 = 250 := by
    decide
  have hre : grownInput.reallocOk = true := rfl
  have hn250 : s1.snow_n = 250 := by
    rw [hn, if_pos hre, h250]
  obtain ⟨hlen, hinit⟩ := hok rfl
  rw [hn250] at hlen hinit
  exact ⟨Or.inl (by decide), rfl, s1, g1, hres, hrows, hcols, hframe, hn250, hlen, hinit⟩

/-- C2 as stated fails: started on 24 by 80 the pool has 60 flakes; after a
resize to 100 by 200 whose `realloc` fails, `rows` and `cols` are the new size
but `snow_n` is still 60 and the pool is still the old one of 60 flakes, not
`clampi(100*200/80, 60, 600) = 250`. -/
theorem snow_n_stale_after_failed_realloc :
    ∃ s g1 s1 g2, start 24 80 true zeros = some (Start.run s g1) ∧
      resize s failedInput g1 = some (s1, g2) ∧ s1.rows = 100 ∧ s1.cols = 200 ∧
      s1.snow_n = 60 ∧ s1.snow = s.snow ∧ s1.snow.length = 60 ∧
      clampi ((s1.rows * s1.cols).tdiv 80) 60 600 = 250 ∧
      s1.snow_n ≠ clampi ((s1.rows * s1.cols).tdiv 80) 60 600 := by
  have h60 : clampi ((24 * 80 : Int).tdiv 80) 60 600 = 60 := by decide
  have h250 : clampi ((100 * 200 : Int).tdiv 80) 60 600 = 250 := by decide
  obtain ⟨snow, g1, hs, hlen⟩ := snow_init_some 60 24 80 zeros
  refine ⟨Scene.mk 24 80 60 snow 0, g1, Scene.mk 100 200 60 snow 0, g1, ?_, ?_, rfl, rfl, rfl,
    rfl, hlen, h250, ?_⟩
  · simp only [start, h60]
    simp [hs]
  · simp [resize, failedInput]
  · show (60 : Int) ≠ clampi ((100 * 200 : Int).tdiv 80) 60 600
    rw [h250]
    decide

theorem recycle_some (cols : Int) (g : Rng) :
    ∃ f1 g1, recycle cols g = some (f1, g1) ∧ f1.y = 0 := by
  simp [recycle, cmod_of_ne _ _ (width_ne_zero cols), cmod_of_ne _ _ (speed_ne_zero _)]

theorem wrapX_y (f : Snowflake) (cols : Int) : (wrapX f cols).y = f.y := by
  simp only [wrapX]
  split_ifs <;> rfl

theorem advance_y (f : Snowflake) (drift : Int) :
    (advance f drift).y = if f.speed ≤ f.phase + 1 then f.y + 1 else f.y := by
  simp only [advance]
  by_cases h : f.speed ≤ f.phase + 1
  · simp [h]
  · simp [h]

theorem stepFlake_some (f : Snowflake) (rows cols : Int) (g : Rng) :
    ∃ f1 g1, stepFlake f rows cols g = some (f1, g1) := by
  unfold stepFlake
  by_cases h : (wrapX (advance f ((rand g).1.tmod 3 - 1)) cols).y ≥ rows
  · obtain ⟨f1, g1, hr, _⟩ := recycle_some cols (rand g).2
    exact ⟨f1, g1, by simp [h, hr]⟩
  · exact ⟨wrapX (advance f ((rand g).1.tmod 3 - 1)) cols, (rand g).2, by simp [h]⟩

theorem stepFlake_y (f : Snowflake) (rows cols : Int) (g : Rng) (f1 : Snowflake) (g1 : Rng)
    (hstep : stepFlake f rows cols g = some (f1, g1)) (h0 : 0 ≤ f.y) (h1 : f.y < rows) :
    (f.phase + 1 < f.speed → f1.y = f.y) ∧
    (f.speed ≤ f.phase + 1 → f.y + 1 < rows → f1.y = f.y + 1) ∧
    (f.speed ≤ f.phase + 1 → f.y + 1 = rows → f1.y = 0) ∧
    0 ≤ f1.y ∧ f1.y < rows := by
  unfold stepFlake at hstep
  have hy := wrapX_y (advance f ((rand g).1.tmod 3 - 1)) cols
  rw [advance_y] at hy
  by_cases h : (wrapX (advance f ((rand g).1.tmod 3 - 1)) cols).y ≥ rows
  · obtain ⟨f2, g2, hr, hzero⟩ := recycle_some cols (rand g).2
    simp only [h, if_true, hr, Option.some.injEq, Prod.mk.injEq] at hstep
    obtain ⟨rfl, _⟩ := hstep
    rw [hy] at h
    split_ifs at h with hp
    · refine ⟨fun _ => ?_, fun _ _ => ?_, fun _ _ => ?_, ?_, ?_⟩ <;> omega
    · omega
  · simp only [h, if_false, Option.some.injEq, Prod.mk.injEq] at hstep
    obtain ⟨rfl, _⟩ := hstep
    rw [hy] at h ⊢
    split_ifs at h ⊢ with hp
    · refine ⟨fun _ => ?_, fun _ _ => ?_, fun _ _ => ?_, ?_, ?_⟩ <;> omega
    · refine ⟨fun _ => ?_, fun _ _ => ?_, fun _ _ => ?_, ?_, ?_⟩ <;> omega

theorem snow_step_some (s : List Snowflake) (rows cols frame : Int) (g : Rng) :
    ∃ s1 g1, snow_step s rows cols frame g = some (s1, g1) ∧
      List.Forall₂ (fun f f1 => ∃ ga gb, stepFlake f rows cols ga = some (f1, gb)) s s1 := by
  induction s generalizing g with
  | nil => exact ⟨[], g, rfl, List.Forall₂.nil⟩
  | cons f fs ih =>
    obtain ⟨f1, g1, hf⟩ := stepFlake_some f rows cols g
    obtain ⟨fs1, g2, hfs, hall⟩ := ih g1
    exact ⟨f1 :: fs1, g2, by simp [snow_step, hf, hfs], List.Forall₂.cons ⟨g, g1, hf⟩ hall⟩

theorem forall₂_getElem? {α β : Type} {R : α → β → Prop} {l : List α} {l1 : List β}
    (h : List.Forall₂ R l l1) :
    ∀ (i : Nat) (a : α), l[i]? = some a → ∃ b, l1[i]? = some b ∧ R a b := by
  induction h with
  | nil => intro i a ha; simp at ha
  | cons hab _ ih =>
    intro i a ha
    cases i with
    | zero =>
      simp at ha
      subst ha
      exact ⟨_, by simp, hab⟩
    | succ i =>
      simp at ha ⊢
      exact ih i a ha

/-- C3: for every flake `f` of the pool with `0 ≤ f.y < rows` and every random
stream, `snow_step` returns, and in the returned pool the flake at the same
index has `y` unchanged (when its phase counter has not reached its speed), or
`y + 1` (when it has and `y + 1 < rows`), or `0` (when it has and
`y + 1 = rows`: the flake is recycled in the same step); so the new `y` is
`y`, `y + 1` or, at the bottom, `0`, and it is never `rows`. -/
theorem snow_step_y (s : List Snowflake) (rows cols frame : Int) (g : Rng)
    (i : Nat) (f : Snowflake) (hf : s[i]? = some f)
    (h0 : 0 ≤ f.y) (h1 : f.y < rows) :
    ∃ s1 g1 f1, snow_step s rows cols frame g = some (s1, g1) ∧ s1[i]? = some f1 ∧
      (f.phase + 1 < f.speed → f1.y = f.y) ∧
      (f.speed ≤ f.phase + 1 → f.y + 1 < rows → f1.y = f.y + 1) ∧
      (f.speed ≤ f.phase + 1 → f.y + 1 = rows → f1.y = 0) ∧
      (f1.y = f.y ∨ (f1.y = f.y + 1 ∧ f.y + 1 < rows) ∨ (f1.y = 0 ∧ f.y + 1 = rows)) ∧
      0 ≤ f1.y ∧ f1.y < rows ∧ f1.y ≠ rows := by
  obtain ⟨s1, g1, hs, hall⟩ := snow_step_some s rows cols frame g
  obtain ⟨f1, hf1, ga, gb, hstep⟩ := forall₂_getElem? hall i f hf
  obtain ⟨ha, hb, hc, hd, he⟩ := stepFlake_y f rows cols ga f1 gb hstep h0 h1
  refine ⟨s1, g1, f1, hs, hf1, ha, hb, hc, ?_, hd, he, by omega⟩
  by_cases hp : f.speed ≤ f.phase + 1
  · by_cases hy : f.y + 1 < rows
    · exact Or.inr (Or.inl ⟨hb hp hy, hy⟩)
    · have hy1 : f.y + 1 = rows := by omega
      exact Or.inr (Or.inr ⟨hc hp hy1, hy1⟩)
  · exact Or.inl (ha (by omega))

theorem snow_step_y_witness :
    [bottomFlake][0]? = some bottomFlake ∧ 0 ≤ bottomFlake.y ∧ bottomFlake.y < 24 ∧
    ∃ s1 g1 f1, snow_step [bottomFlake] 24 80 0 zeros = some (s1, g1) ∧ s1[0]? = some f1 ∧
      (bottomFlake.phase + 1 < bottomFlake.speed → f1.y = bottomFlake.y) ∧
      (bottomFlake.speed ≤ bottomFlake.phase + 1 → bottomFlake.y + 1 < 24 →
        f1.y = bottomFlake.y + 1) ∧
      (bottomFlake.speed ≤ bottomFlake.phase + 1 → bottomFlake.y + 1 = 24 → f1.y = 0) ∧
      (f1.y = bottomFlake.y ∨ (f1.y = bottomFlake.y + 1 ∧ bottomFlake.y + 1 < 24) ∨
        (f1.y = 0 ∧ bottomFlake.y + 1 = 24)) ∧
      0 ≤ f1.y ∧ f1.y < 24 ∧ f1.y ≠ 24 :=
  ⟨rfl, by decide, by decide,
    snow_step_y [bottomFlake] 24 80 0 zeros 0 bottomFlake rfl (by decide) (by decide)⟩

end Xmas

namespace Skyline

theorem explode_some (r : Rocket) (p : List Particle) (g : Rng) :
    ∃ p1 g1, explode r p g = some (p1, g1) := by
  obtain ⟨p1, g1, hs, _⟩ := explodeRounds_spec r 80 p g
  exact ⟨p1, g1, hs⟩

theorem ascend_spec (r : List Rocket) (p : List Particle) (g : Rng) :
    ∃ r1 p1 g1, ascend r p g = some (r1, p1, g1) ∧ List.Forall₂ Rise r r1 := by
  induction r generalizing p g with
  | nil => exact ⟨[], p, g, rfl, List.Forall₂.nil⟩
  | cons q qs ih =>
    by_cases hq : q.active = 0
    · obtain ⟨qs1, p1, g1, hs, hall⟩ := ih p g
      exact ⟨q :: qs1, p1, g1, by simp [ascend, hq, hs],
        List.Forall₂.cons (Or.inl ⟨hq, rfl⟩) hall⟩
    · by_cases hf : q.y + q.vy ≤ q.fuse
      · obtain ⟨p1, g1, hx⟩ := explode_some { q with y := q.y + q.vy } p g
        obtain ⟨qs1, p2, g2, hs, hall⟩ := ih p1 g1
        exact ⟨{ q with y := q.y + q.vy, active := 0 } :: qs1, p2, g2,
          by simp [ascend, hq, hf, hx, hs],
          List.Forall₂.cons (Or.inr (Or.inr ⟨hq, hf, rfl⟩)) hall⟩
      · obtain ⟨qs1, p1, g1, hs, hall⟩ := ih p g
        exact ⟨{ q with y := q.y + q.vy } :: qs1, p1, g1, by simp [ascend, hq, hf, hs],
          List.Forall₂.cons (Or.inr (Or.inl ⟨hq, by omega, rfl⟩)) hall⟩

theorem spawn_rocket_active (q q1 : Rocket) (cols horizon : Int) (g g1 : Rng)
    (h : spawn_rocket q cols horizon g = some (q1, g1)) : q1.active = 1 := by
  simp only [spawn_rocket, Option.bind_eq_bind, Option.pure_def] at h
  cases hx : randi (cols.tdiv 6) ((cols * 5).tdiv 6) g with
  | none => simp [hx] at h
  | some a =>
    cases hfu : randi 3 (horizon.tdiv 3) a.2 with
    | none => simp [hx, hfu] at h
    | some b =>
      simp [hx, hfu] at h
      rw [← h.1]

theorem launchScan_full (cols horizon : Int) (r : List Rocket) (g : Rng)
    (hfull : ∀ q ∈ r, q.active ≠ 0) : launchScan cols horizon r g = some (r, g) := by
  induction r with
  | nil => rfl
  | cons q qs ih =>
    have hq : q.active ≠ 0 := hfull q (List.mem_cons_self q qs)
    have hqs := ih (fun a ha => hfull a (List.mem_cons_of_mem q ha))
    simp [launchScan, hq, hqs]

theorem launchScan_one (cols horizon : Int) (r r2 : List Rocket) (g g2 : Rng)
    (h : launchScan cols horizon r g = some (r2, g2)) :
    r2 = r ∨ ∃ (i : Nat) (q q1 : Rocket), r[i]? = some q ∧ q.active = 0 ∧
      (∀ (j : Nat) (a : Rocket), j < i → r[j]? = some a → a.active ≠ 0) ∧
      q1.active = 1 ∧ r2 = r.set i q1 := by
  induction r generalizing r2 g2 with
  | nil =>
    simp [launchScan] at h
    exact Or.inl h.1
  | cons q qs ih =>
    by_cases hq : q.active = 0
    · cases hsp : spawn_rocket q cols horizon g with
      | none => simp [launchScan, hq, hsp] at h
      | some a =>
        simp [launchScan, hq, hsp] at h
        refine Or.inr ⟨0, q, a.1, by simp, hq, fun j _ hj => absurd hj (Nat.not_lt_zero j),
          spawn_rocket_active q a.1 cols horizon g a.2 hsp, ?_⟩
        simp [← h.1]
    · cases hrec : launchScan cols horizon qs g with
      | none => simp [launchScan, hq, hrec] at h
      | some a =>
        simp [launchScan, hq, hrec] at h
        rcases ih a.1 a.2 hrec with heq | ⟨i, b, b1, hb, hb0, hbefore, hb1, hset⟩
        · exact Or.inl (by rw [← h.1, heq])
        · refine Or.inr ⟨i + 1, b, b1, by simpa using hb, hb0, ?_, hb1, ?_⟩
          · intro j b2 hj hb2
            cases j with
            | zero =>
              simp at hb2
              rw [← hb2]
              exact hq
            | succ j =>
              simp at hb2
              exact hbefore j b2 (by omega) hb2
          · simp [← h.1, hset]

theorem ascend_no_fuse (r : List Rocket) (p : List Particle) (g : Rng)
    (hall : ∀ q ∈ r, q.active ≠ 0 ∧ q.fuse < q.y + q.vy) :
    ascend r p g = some (r.map (fun q => { q with y := q.y + q.vy }), p, g) := by
  induction r with
  | nil => rfl
  | cons q qs ih =>
    obtain ⟨hq, hf⟩ := hall q (List.mem_cons_self q qs)
    have hqs := ih (fun a ha => hall a (List.mem_cons_of_mem q ha))
    have hf1 : ¬ (q.y + q.vy ≤ q.fuse) := by omega
    simp [ascend, hq, hf1, hqs]

/-- C4: the first loop of `update_fireworks` always returns, and it changes a
rocket slot only by moving an active rocket or by switching off one that has
reached its fuse.  If every slot is active after that loop then, whatever the
random draw, `update_fireworks` returns with exactly those rockets: nothing is
launched.  Whenever `update_fireworks` returns, its rockets are those left by
the first loop, except for at most one slot, which was the first inactive one
and now holds an active rocket.  In particular, when all rockets are active
and none reaches its fuse in this tick, the rockets only move by `vy`. -/
theorem update_fireworks_launch_needs_free_slot (r : List Rocket) (p : List Particle)
    (cols horizon : Int) (g : Rng) :
    (∃ r1 p1 g1, ascend r p g = some (r1, p1, g1) ∧ List.Forall₂ Rise r r1 ∧
      ((∀ q ∈ r1, q.active ≠ 0) →
        update_fireworks r p cols horizon g = some (r1, p1.map stepSpark, (rand g1).2)) ∧
      (∀ (r2 : List Rocket) (p2 : List Particle) (g2 : Rng),
        update_fireworks r p cols horizon g = some (r2, p2, g2) →
        r2 = r1 ∨ ∃ (i : Nat) (q q1 : Rocket), r1[i]? = some q ∧ q.active = 0 ∧
          (∀ (j : Nat) (a : Rocket), j < i → r1[j]? = some a → a.active ≠ 0) ∧
          q1.active = 1 ∧ r2 = r1.set i q1)) ∧
    ((∀ q ∈ r, q.active ≠ 0 ∧ q.fuse < q.y + q.vy) →
      update_fireworks r p cols horizon g =
        some (r.map (fun q => { q with y := q.y + q.vy }), p.map stepSpark, (rand g).2)) := by
  have hfull : ∀ (r1 : List Rocket) (p1 : List Particle) (g1 : Rng),
      ascend r p g = some (r1, p1, g1) → (∀ q ∈ r1, q.active ≠ 0) →
      update_fireworks r p cols horizon g = some (r1, p1.map stepSpark, (rand g1).2) := by
    intro r1 p1 g1 hasc hact
    have hl : launch cols horizon r1 g1 = some (r1, (rand g1).2) := by
      unfold launch
      split
      · exact launchScan_full cols horizon r1 (rand g1).2 hact
      · rfl
    simp [update_fireworks, hasc, hl]
  constructor
  · obtain ⟨r1, p1, g1, hasc, hrise⟩ := ascend_spec r p g
    refine ⟨r1, p1, g1, hasc, hrise, hfull r1 p1 g1 hasc, ?_⟩
    intro r2 p2 g2 hup
    simp only [update_fireworks, hasc, Option.bind_eq_bind, Option.some_bind,
      Option.pure_def] at hup
    cases hl : launch cols horizon r1 g1 with
    | none => simp [hl] at hup
    | some a =>
      simp [hl] at hup
      obtain ⟨ha, _, _⟩ := hup
      subst ha
      unfold launch at hl
      split at hl
      · exact launchScan_one cols horizon r1 a.1 (rand g1).2 a.2 hl
      · simp at hl
        exact Or.inl (by rw [← hl]; )
  · intro hall
    have hasc := ascend_no_fuse r p g hall
    refine hfull _ p g hasc ?_
    intro q hq
    obtain ⟨a, ha, rfl⟩ := List.mem_map.1 hq
    exact (hall a ha).1

theorem update_fireworks_launch_needs_free_slot_witness :
    (∀ q ∈ fullRockets, q.active ≠ 0 ∧ q.fuse < q.y + q.vy) ∧
    update_fireworks fullRockets samplePool 80 19 zeros =
      some (fullRockets.map (fun q => { q with y := q.y + q.vy }), samplePool.map stepSpark,
        (rand zeros).2) :=
  ⟨by decide,
    (update_fireworks_launch_needs_free_slot fullRockets samplePool 80 19 zeros).2 (by decide)⟩

end Skyline

namespace Xmas

theorem hash_wraps_once (x y : Int) :
    u32 (u32 (u32 (u32 (u32 x * 1103515245) + u32 (u32 y * 12345)) + u32 (x <<< 16))
      + u32 (y <<< 1)) = cellHash x y := by
  simp only [u32, cellHash]
  omega

/-- C6: `ornament_color_for_cell x y` depends on `x` and `y` alone; with
`h = x*1103515245 + y*12345 + (x<<16) + (y<<1)` modulo `2^32`, it is `0`
exactly when `h mod 13` is not `0`, it is `2 + h mod 5` otherwise, and so it
is `0` or one of `2, 3, 4, 5, 6`. -/
theorem ornament_color_for_cell_spec (x y : Int) :
    ornament_color_for_cell x y =
      (if cellHash x y % 13 ≠ 0 then 0 else 2 + cellHash x y % 5) ∧
    (ornament_color_for_cell x y = 0 ↔ cellHash x y % 13 ≠ 0) ∧
    (ornament_color_for_cell x y = 0 ∨ ornament_color_for_cell x y = 2 ∨
      ornament_color_for_cell x y = 3 ∨ ornament_color_for_cell x y = 4 ∨
      ornament_color_for_cell x y = 5 ∨ ornament_color_for_cell x y = 6) := by
  have hw := hash_wraps_once x y
  have hdef : ornament_color_for_cell x y =
      (if cellHash x y % 13 ≠ 0 then 0 else 2 + cellHash x y % 5) := by
    simp only [ornament_color_for_cell, hw]
  refine ⟨hdef, ?_, ?_⟩
  · rw [hdef]
    by_cases h : cellHash x y % 13 ≠ 0
    · simp [h]
    · rw [if_neg h]
      constructor
      · intro h0
        omega
      · intro h1
        exact absurd h1 h
  · rw [hdef]
    by_cases h : cellHash x y % 13 ≠ 0
    · rw [if_pos h]
      exact Or.inl rfl
    · rw [if_neg h]
      omega

theorem xmas_frame_stops_iff (s : Scene) (i : Input) (wave : Int → Int → Int → Int) (g : Rng) :
    frame s i wave g = some Loop.stop ↔ (i.ch = ('q'.toNat : Int) ∨ i.ch = ('Q'.toNat : Int)) := by
  unfold frame
  by_cases hq : quitKey i.ch = true
  · simp only [hq, if_true, true_iff]
    simpa [quitKey] using hq
  · have hne : ¬ (i.ch = ('q'.toNat : Int) ∨ i.ch = ('Q'.toNat : Int)) := by
      simpa [quitKey] using hq
    simp only [hq, hne, iff_false]
    intro h
    simp only [Bool.false_eq_true, if_false, Option.bind_eq_bind, Option.pure_def] at h
    cases h1 : resize s i g with
    | none => simp [h1] at h
    | some a =>
      cases h2 : draw_tree a.1.rows a.1.cols a.1.frame wave with
      | none => simp [h1, h2] at h
      | some b =>
        cases h3 : snow_step a.1.snow a.1.rows a.1.cols a.1.frame a.2 with
        | none => simp [h1, h2, h3] at h
        | some c => simp [h1, h2, h3] at h

end Xmas

namespace Sunset

theorem sunset_frame_stops_iff (s : Scene) (nh nw ch : Int) (g : Rng)
    (hsame : nh = s.h ∧ nw = s.w) :
    frame s nh nw ch g = some Loop.stop ↔ (ch = ('q'.toNat : Int) ∨ ch = ('Q'.toNat : Int)) := by
  have hno : ¬ (nh ≠ s.h ∨ nw ≠ s.w) := by
    rw [hsame.1, hsame.2]
    simp
  simp only [frame, hno, if_false, Option.bind_eq_bind, Option.some_bind, Option.pure_def]
  by_cases hq : quitKey ch = true
  · simp only [hq, if_true, true_iff]
    simpa [quitKey] using hq
  · have hne : ¬ (ch = ('q'.toNat : Int) ∨ ch = ('Q'.toNat : Int)) := by
      simpa [quitKey] using hq
    simp only [hq, hne, iff_false]
    intro h
    simp at h

end Sunset

namespace Skyline

theorem skyline_frame_stops_iff (s : Scene) (ch : Int) (g : Rng) :
    frame s ch g = some Loop.stop ↔ ch = ('q'.toNat : Int) := by
  unfold frame
  by_cases hq : quitKey ch = true
  · simp only [hq, if_true, true_iff]
    simpa [quitKey] using hq
  · have hne : ¬ (ch = ('q'.toNat : Int)) := by
      simpa [quitKey] using hq
    simp only [hq, hne, iff_false]
    intro h
    simp only [Bool.false_eq_true, if_false, Option.bind_eq_bind, Option.pure_def] at h
    cases h1 : update_fireworks s.rockets s.particles s.cols s.horizon g with
    | none => simp [h1] at h
    | some a => simp [h1] at h

theorem ascend_idle (r : List Rocket) (p : List Particle) (g : Rng)
    (hidle : ∀ q ∈ r, q.active = 0) : ascend r p g = some (r, p, g) := by
  induction r with
  | nil => rfl
  | cons q qs ih =>
    have hq : q.active = 0 := hidle q (List.mem_cons_self q qs)
    have hqs := ih (fun a ha => hidle a (List.mem_cons_of_mem q ha))
    simp [ascend, hq, hqs]

theorem update_fireworks_fault_of_launch (r : List Rocket) (p : List Particle)
    (cols horizon : Int) (g : Rng) (r1 : List Rocket) (p1 : List Particle) (g1 : Rng)
    (hasc : ascend r p g = some (r1, p1, g1)) (hl : launch cols horizon r1 g1 = none) :
    update_fireworks r p cols horizon g = none := by
  simp [update_fireworks, hasc, hl]

/-- C7, at the key `'Q'` in the skyline program: the test of its main loop is
`ch == 'q'` alone, so a pass of the loop that polls `'Q'` does not leave the
loop, from any scene and for any random stream, while a pass that polls `'q'`
does. -/
theorem skyline_frame_upper_Q_goes_on (s : Scene) (g : Rng) :
    frame s ('Q'.toNat : Int) g ≠ some Loop.stop ∧
      frame s ('q'.toNat : Int) g = some Loop.stop := by
  constructor
  · intro h
    have := (skyline_frame_stops_iff s _ g).1 h
    simp at this
  · exact (skyline_frame_stops_iff s _ g).2 rfl

theorem randi_none_iff (lo hi : Int) (g : Rng) : randi lo hi g = none ↔ hi - lo + 1 = 0 := by
  by_cases h : hi - lo + 1 = 0
  · simp [randi, cmod, h]
  · simp [randi, cmod, h]

theorem spawn_rocket_faults_iff (r : Rocket) (cols horizon : Int) (g : Rng) (hcols : 1 ≤ cols) :
    spawn_rocket r cols horizon g = none ↔ horizon.tdiv 3 = 2 := by
  have hx : (cols * 5).tdiv 6 - cols.tdiv 6 + 1 ≠ 0 := by
    rw [Int.tdiv_eq_ediv (by omega) (by norm_num), Int.tdiv_eq_ediv (by omega) (by norm_num)]
    omega
  have hxs : ∃ a, randi (cols.tdiv 6) ((cols * 5).tdiv 6) g = some a := by
    cases hr : randi (cols.tdiv 6) ((cols * 5).tdiv 6) g with
    | none => exact absurd ((randi_none_iff _ _ g).1 hr) hx
    | some a => exact ⟨a, rfl⟩
  obtain ⟨a, ha⟩ := hxs
  simp only [spawn_rocket, ha, Option.bind_eq_bind, Option.some_bind, Option.pure_def]
  cases hf : randi 3 (horizon.tdiv 3) a.2 with
  | none =>
    have := (randi_none_iff _ _ _).1 hf
    simp only [Option.none_bind, true_iff]
    omega
  | some b =>
    have hne : ¬ (horizon.tdiv 3 - 3 + 1 = 0) := by
      intro h0
      rw [(randi_none_iff _ _ _).2 h0] at hf
      exact Option.noConfusion hf
    simp only [Option.some_bind]
    constructor
    · intro h
      exact Option.noConfusion h
    · intro h
      omega

/-- C8, at a terminal of 10 rows: `main` computes `horizon_y = 8`, so the fuse
range of `spawn_rocket` is `randi(3, 2)` with modulus `2 - 3 + 1 = 0`, and
`spawn_rocket` faults for every slot, width and random stream; the first tick
whose draw asks for a launch (here the stream of zeros, on the pools as `main`
initialises them) makes `update_fireworks` fault. -/
theorem spawn_rocket_faults_at_ten_rows :
    horizon_y 10 = 8 ∧ (8 : Int).tdiv 3 - 3 + 1 = 0 ∧
    (∀ (r : Rocket) (cols : Int) (g : Rng), spawn_rocket r cols (horizon_y 10) g = none) ∧
    update_fireworks (List.replicate 10 freeRocket) (List.replicate 500 freeSlot) 80
      (horizon_y 10) (fun _ => 0) = none := by
  have h8 : horizon_y 10 = 8 := by decide
  have h2 : (8 : Int).tdiv 3 = 2 := by decide
  have hfuse : ∀ g : Rng, randi 3 ((8 : Int).tdiv 3) g = none := by
    intro g
    simp [randi, cmod, h2]
  have hsp : ∀ (r : Rocket) (cols : Int) (g : Rng), spawn_rocket r cols (horizon_y 10) g = none := by
    intro r cols g
    rw [h8]
    simp only [spawn_rocket, Option.bind_eq_bind, Option.pure_def]
    cases hx : randi (cols.tdiv 6) ((cols * 5).tdiv 6) g with
    | none => simp
    | some a => simp [hfuse]
  refine ⟨h8, by decide, hsp, ?_⟩
  have hasc := ascend_idle (List.replicate 10 freeRocket) (List.replicate 500 freeSlot)
    (fun _ => 0) (fun q hq => by rw [List.eq_of_mem_replicate hq]; rfl)
  have hl : launch 80 (horizon_y 10) (List.replicate 10 freeRocket) (fun _ => 0) = none := by
    rw [show List.replicate 10 freeRocket = freeRocket :: List.replicate 9 freeRocket from rfl]
    have hz : (rand (fun _ => 0)).1.tmod 8 = 0 := by decide
    have hfree : freeRocket.active = 0 := rfl
    simp only [launch, hz, if_true, launchScan, hfree, hsp, Option.bind_eq_bind,
      Option.none_bind]
  exact update_fireworks_fault_of_launch _ _ _ _ _ _ _ _ hasc hl

end Skyline

namespace Sunset

theorem seedLoop_fault (w h : Int) (n : Nat) (g : Rng) (hs : seedStar w h g = none) :
    seedLoop w h (n + 1) g = none := by
  simp [seedLoop, hs]

theorem seedStar_in_bounds (w h : Int) (g : Rng) (hw : 1 ≤ w) (hh : 2 ≤ h) :
    ∃ s g1, seedStar w h g = some (s, g1) ∧
      0 ≤ s.x ∧ s.x < w ∧ 0 ≤ s.y ∧ s.y < h ∧ 0 ≤ s.bright ∧ s.bright ≤ 99 := by
  have hh2 : h.tdiv 2 = h / 2 := Int.tdiv_eq_ediv (by omega) (by norm_num)
  have hpos : 0 < h.tdiv 2 := by omega
  have hx0 := Int.tmod_nonneg w (rand_nonneg g)
  have hx1 := Int.tmod_lt_of_pos (rand g).1 (show 0 < w by omega)
  have hy0 := Int.tmod_nonneg (h.tdiv 2) (rand_nonneg (rand g).2)
  have hy1 := Int.tmod_lt_of_pos (rand (rand g).2).1 hpos
  have hb0 := Int.tmod_nonneg 100 (rand_nonneg (rand (rand g).2).2)
  have hb1 := Int.tmod_lt_of_pos (rand (rand (rand g).2).2).1 (show (0 : Int) < 100 by norm_num)
  refine ⟨Star.mk ((rand g).1.tmod w) ((rand (rand g).2).1.tmod (h.tdiv 2))
    ((rand (rand (rand g).2).2).1.tmod 100), (rand (rand (rand g).2).2).2,
    ?_, hx0, hx1, hy0, ?_, hb0, ?_⟩
  · simp only [seedStar, cmod_of_ne _ _ (show w ≠ 0 by omega),
      cmod_of_ne _ _ (show h.tdiv 2 ≠ 0 by omega), Option.bind_eq_bind, Option.some_bind,
      Option.pure_def]
  · show (rand (rand g).2).1.tmod (h.tdiv 2) < h
    omega
  · show (rand (rand (rand g).2).2).1.tmod 100 ≤ 99
    omega

theorem seedLoop_in_bounds (w h : Int) (n : Nat) (g : Rng) (hw : 1 ≤ w) (hh : 2 ≤ h) :
    ∃ l g1, seedLoop w h n g = some (l, g1) ∧ l.length = n ∧
      ∀ s ∈ l, 0 ≤ s.x ∧ s.x < w ∧ 0 ≤ s.y ∧ s.y < h ∧ 0 ≤ s.bright ∧ s.bright ≤ 99 := by
  induction n generalizing g with
  | zero => exact ⟨[], g, rfl, rfl, by simp⟩
  | succ n ih =>
    obtain ⟨s, g1, hs, hb⟩ := seedStar_in_bounds w h g hw hh
    obtain ⟨l, g2, hl, hlen, hall⟩ := ih g1
    refine ⟨s :: l, g2, by simp [seedLoop, hs, hl], by simp [hlen], ?_⟩
    intro a ha
    rcases List.mem_cons.1 ha with rfl | ha
    · exact hb
    · exact hall a ha

theorem seed_stars_in_bounds_of_two_rows (w h : Int) (g : Rng) (hw : 1 ≤ w) (hh : 2 ≤ h) :
    ∃ l, seed_stars w h g = some l ∧ l.length = 150 ∧
      ∀ s ∈ l, 0 ≤ s.x ∧ s.x < w ∧ 0 ≤ s.y ∧ s.y < h ∧ 0 ≤ s.bright ∧ s.bright ≤ 99 := by
  obtain ⟨l, g1, hl, hlen, hall⟩ := seedLoop_in_bounds w h STAR_COUNT g hw hh
  exact ⟨l, by simp [seed_stars, hl], hlen, hall⟩

/-- C9, at a terminal of one row: `seed_stars(w, 1)` evaluates
`rand() % (h/2)` with `h/2 = 0`, so it faults for every width and random
stream, and with it the start of `main`. -/
theorem seed_stars_faults_at_one_row (w : Int) (g : Rng) :
    seed_stars w 1 g = none ∧ start w 1 g = none := by
  have h0 : (1 : Int).tdiv 2 = 0 := by decide
  have hstar : seedStar w 1 g = none := by
    simp only [seedStar, cmod, h0, Option.bind_eq_bind, Option.pure_def]
    by_cases hw : w = 0
    · simp [hw]
    · simp [hw]
  have hseed : seed_stars w 1 g = none := by
    rw [seed_stars, show STAR_COUNT = 149 + 1 from rfl, seedLoop_fault w 1 149 g hstar]
    rfl
  exact ⟨hseed, by simp [start, hseed]⟩

end Sunset

namespace Xmas

theorem tree_height_ge (rows : Int) : 10 ≤ clampi ((rows * 2).tdiv 3) 10 (rows - 4) := by
  unfold clampi
  rcases tdiv_cases (rows * 2) 3 (by norm_num) with ⟨_, h⟩ | ⟨_, h⟩ <;> rw [h] <;>
    split_ifs <;> omega

theorem mem_intRange {lo hi v : Int} (h : v ∈ intRange lo hi) : lo ≤ v ∧ v < hi := by
  simp only [intRange, List.mem_map, List.mem_range] at h
  obtain ⟨k, hk, rfl⟩ := h
  omega

theorem treeCell_pos (i wave_x y x : Int) :
    (treeCell i wave_x y x).x = x ∧ (treeCell i wave_x y x).y = y := by
  simp only [treeCell]
  split_ifs <;> exact ⟨rfl, rfl⟩

theorem treeRow_in_bounds (rows cols frame : Int) (wave : Int → Int → Int → Int)
    (tree_height tree_base_width cx topy i : Int) (hth : 2 * tree_height ≠ 0) :
    ∃ cells, treeRow rows cols frame wave tree_height tree_base_width cx topy i = some cells ∧
      ∀ c ∈ cells, 0 ≤ c.x ∧ c.x < cols ∧ 0 ≤ c.y ∧ c.y < rows := by
  unfold treeRow
  by_cases hy : topy + i < 0 ∨ topy + i ≥ rows
  · exact ⟨[], by simp [hy], by simp⟩
  · simp only [hy, if_false, cdiv, hth, Option.bind_eq_bind, Option.some_bind, Option.pure_def]
    refine ⟨_, rfl, ?_⟩
    intro c hc
    obtain ⟨x, _, hx⟩ := List.mem_filterMap.1 hc
    by_cases hxb : x < 0 ∨ x ≥ cols
    · simp [hxb] at hx
    · simp only [hxb, if_false, Option.some.injEq] at hx
      subst hx
      obtain ⟨h1, h2⟩ := treeCell_pos i
        (cx + wave (clampi ((i * tree_base_width).tdiv (2 * tree_height)) 1 (cols.tdiv 2 - 2))
          i frame) (topy + i) x
      rw [h1, h2]
      omega

theorem treeBody_in_bounds (P : Cell → Prop) (row : Int → Option (List Cell)) (l : List Int)
    (hrow : ∀ i, ∃ cells, row i = some cells ∧ ∀ c ∈ cells, P c) :
    ∃ cells, treeBody row l = some cells ∧ ∀ c ∈ cells, P c := by
  induction l with
  | nil => exact ⟨[], rfl, by simp⟩
  | cons i rest ih =>
    obtain ⟨a, ha, hPa⟩ := hrow i
    obtain ⟨b, hb, hPb⟩ := ih
    refine ⟨a ++ b, by simp [treeBody, ha, hb], ?_⟩
    intro c hc
    rcases List.mem_append.1 hc with h | h
    · exact hPa c h
    · exact hPb c h

/-- C10: for every `rows` (so for every `rows ≥ 1`), every `cols ≥ 1`, every
frame number and every value of the garland's floating-point wave, `draw_tree` returns (its divisor
`2 * tree_height` is at least 20, so never zero) and every cell it writes,
star, tree body with garland and ornaments, trunk and ground, has
`0 ≤ x < cols` and `0 ≤ y < rows`. -/
theorem draw_tree_in_bounds (rows cols frame : Int) (wave : Int → Int → Int → Int)
    (hcols : 1 ≤ cols) :
    20 ≤ 2 * clampi ((rows * 2).tdiv 3) 10 (rows - 4) ∧
    ∃ cells, draw_tree rows cols frame wave = some cells ∧
      ∀ c ∈ cells, 0 ≤ c.x ∧ c.x < cols ∧ 0 ≤ c.y ∧ c.y < rows := by
  have hth := tree_height_ge rows
  refine ⟨by omega, ?_⟩
  obtain ⟨body, hbody, hin⟩ := treeBody_in_bounds
    (fun c => 0 ≤ c.x ∧ c.x < cols ∧ 0 ≤ c.y ∧ c.y < rows)
    (treeRow rows cols frame wave (clampi ((rows * 2).tdiv 3) 10 (rows - 4))
      (clampi (clampi ((rows * 2).tdiv 3) 10 (rows - 4)) 12 (cols - 4)) (cols.tdiv 2)
      ((rows - clampi ((rows * 2).tdiv 3) 10 (rows - 4)).tdiv 2))
    (intRange 0 (clampi ((rows * 2).tdiv 3) 10 (rows - 4)))
    (fun i => treeRow_in_bounds rows cols frame wave _ _ _ _ i (by omega))
  simp only [draw_tree, hbody, Option.bind_eq_bind, Option.some_bind, Option.pure_def]
  refine ⟨_, rfl, ?_⟩
  have hcx : 0 ≤ cols.tdiv 2 ∧ cols.tdiv 2 < cols := by
    rw [Int.tdiv_eq_ediv (by omega) (by norm_num)]
    omega
  intro c hc
  simp only [List.mem_append] at hc
  rcases hc with ((hstar | hb) | htrunk) | hground
  · split_ifs at hstar with hs
    · simp only [List.mem_singleton] at hstar
      subst hstar
      refine ⟨hcx.1, hcx.2, hs, ?_⟩
      show (rows - clampi ((rows * 2).tdiv 3) 10 (rows - 4)).tdiv 2 - 1 < rows
      rcases tdiv_cases (rows - clampi ((rows * 2).tdiv 3) 10 (rows - 4)) 2 (by norm_num)
        with ⟨_, h⟩ | ⟨_, h⟩ <;> rw [h] <;> omega
    · simp at hstar
  · exact hin c hb
  · obtain ⟨y, _, hy⟩ := List.mem_flatMap.1 htrunk
    split_ifs at hy with hyb
    · simp at hy
    · obtain ⟨x, _, hx⟩ := List.mem_filterMap.1 hy
      by_cases hxb : x < 0 ∨ x ≥ cols
      · simp [hxb] at hx
      · simp only [hxb, if_false, Option.some.injEq] at hx
        subst hx
        refine ⟨?_, ?_, ?_, ?_⟩ <;> dsimp only <;> omega
  · split_ifs at hground with hg
    · obtain ⟨x, hx, rfl⟩ := List.mem_map.1 hground
      have := mem_intRange hx
      refine ⟨?_, ?_, ?_, ?_⟩ <;> dsimp only <;> omega
    · simp at hground

theorem draw_tree_in_bounds_witness :
    (1 : Int) ≤ 80 ∧ 20 ≤ 2 * clampi (((24 : Int) * 2).tdiv 3) 10 (24 - 4) ∧
    ∃ cells, draw_tree 24 80 0 (fun _ _ _ => 0) = some cells ∧
      ∀ c ∈ cells, 0 ≤ c.x ∧ c.x < 80 ∧ 0 ≤ c.y ∧ c.y < 24 :=
  ⟨by decide, draw_tree_in_bounds 24 80 0 (fun _ _ _ => 0) (by decide)⟩

end Xmas

namespace Sunset

theorem darkness_zero : darkness 0 = 1 / 2 := by
  simp [darkness, sun_y_norm, angle]
  norm_num

theorem darkness_one : darkness 1 = 1 / 2 := by
  have h : Real.pi * (1 - 2 * 1) = -Real.pi := by ring
  simp [darkness, sun_y_norm, angle, h]
  norm_num

theorem darkness_continuous : Continuous darkness := by
  unfold darkness sun_y_norm angle
  fun_prop

theorem phase_of_lt (e : ℝ) (h0 : 0 ≤ e) (h1 : e < 140) : phase e = e / 140 := by
  have hfl : ⌊e / 140⌋ = 0 := Int.floor_eq_zero_iff.2 ⟨by positivity, by
    rw [div_lt_one (by norm_num)]
    exact h1⟩
  simp [phase, CYCLE_SECONDS, hfl]

theorem phase_cycle : phase 140 = 0 := by
  simp [phase, CYCLE_SECONDS]

/-- C5: over the reals, with `angle = π(1 − 2t)` and
`darkness = 1 − (sin(angle) + 1)/2`, the darkness at phase `t = 0` equals the
darkness at phase `t = 1` (both are `1/2`); darkness is continuous in the
phase, so as the elapsed time rises to 140 seconds, where the phase wraps from
just below 1 to 0, the darkness tends to its value at the wrap: no jump. -/
theorem darkness_joins_up :
    darkness 0 = darkness 1 ∧ Continuous darkness ∧
    Filter.Tendsto (fun e => darkness (phase e)) (nhdsWithin 140 (Set.Iio 140))
      (nhds (darkness (phase 140))) := by
  have h01 : darkness 0 = darkness 1 := by rw [darkness_zero, darkness_one]
  refine ⟨h01, darkness_continuous, ?_⟩
  have hlim : Filter.Tendsto (fun e : ℝ => darkness (e / 140)) (nhdsWithin 140 (Set.Iio 140))
      (nhds (darkness (140 / 140))) :=
    ((darkness_continuous.comp (continuous_id.div_const 140)).tendsto 140).mono_left
      nhdsWithin_le_nhds
  have hval : darkness (140 / 140) = darkness (phase 140) := by
    rw [phase_cycle, h01]
    norm_num
  rw [hval] at hlim
  refine hlim.congr' ?_
  have hmem : Set.Ioo (0 : ℝ) 140 ∈ nhdsWithin (140 : ℝ) (Set.Iio 140) :=
    Ioo_mem_nhdsWithin_Iio (by constructor <;> norm_num)
  filter_upwards [hmem] with e he
  rw [phase_of_lt e (le_of_lt he.1) he.2]

end Sunset

namespace Skyline

theorem randi_range (lo hi : Int) (g : Rng) (h : lo ≤ hi) :
    ∃ v, randi lo hi g = some (v, (rand g).2) ∧ lo ≤ v ∧ v ≤ hi := by
  have h0 := Int.tmod_nonneg (hi - lo + 1) (rand_nonneg g)
  have h1 := Int.tmod_lt_of_pos (rand g).1 (show 0 < hi - lo + 1 by omega)
  exact ⟨lo + (rand g).1.tmod (hi - lo + 1), randi_of_le lo hi g h, by omega, by omega⟩

theorem newSpark_isSpark (r : Rocket) (g : Rng) :
    ∃ s g1, newSpark r g = some (s, g1) ∧ IsSpark r s := by
  obtain ⟨vx, hvx, hx0, hx1⟩ := randi_range (-3) 3 g (by norm_num)
  obtain ⟨vy, hvy, hy0, hy1⟩ := randi_range (-3) 3 (rand g).2 (by norm_num)
  obtain ⟨ttl, httl, ht0, ht1⟩ := randi_range 12 30 (rand (rand g).2).2 (by norm_num)
  refine ⟨Particle.mk r.x r.y vx vy ttl r.color 1, (rand (rand (rand g).2).2).2, ?_,
    rfl, rfl, rfl, hx0, hx1, hy0, hy1, ht0, ht1, rfl⟩
  simp only [newSpark, hvx, hvy, httl, Option.bind_eq_bind, Option.some_bind, Option.pure_def]

theorem fillWith_refl (r : Rocket) (p : List Particle) : List.Forall₂ (FillWith r) p p := by
  induction p with
  | nil => exact List.Forall₂.nil
  | cons a as ih => exact List.Forall₂.cons (Or.inl rfl) ih

theorem fillWith_trans (r : Rocket) {p p1 p2 : List Particle}
    (h1 : List.Forall₂ (FillWith r) p p1) (h2 : List.Forall₂ (FillWith r) p1 p2) :
    List.Forall₂ (FillWith r) p p2 := by
  induction h1 generalizing p2 with
  | nil => exact h2
  | cons hab _ ih =>
    cases h2 with
    | cons hbc hrest =>
      refine List.Forall₂.cons ?_ (ih hrest)
      rcases hab with rfl | ⟨ha, hb⟩
      · exact hbc
      · rcases hbc with rfl | ⟨hb0, _⟩
        · exact Or.inr ⟨ha, hb⟩
        · have hb1 : _ = (1 : Int) := hb.2.2.2.2.2.2.2.2.2
          omega

theorem explodeScan_fillWith (r : Rocket) (p : List Particle) (g : Rng) :
    ∃ p1 g1, explodeScan r p g = some (p1, g1) ∧ List.Forall₂ (FillWith r) p p1 := by
  induction p with
  | nil => exact ⟨[], g, rfl, List.Forall₂.nil⟩
  | cons q qs ih =>
    by_cases hq : q.active = 0
    · obtain ⟨s, g1, hs, hspark⟩ := newSpark_isSpark r g
      exact ⟨s :: qs, g1, by simp [explodeScan, hq, hs],
        List.Forall₂.cons (Or.inr ⟨hq, hspark⟩) (fillWith_refl r qs)⟩
    · obtain ⟨qs1, g1, hs, hfill⟩ := ih
      exact ⟨q :: qs1, g1, by simp [explodeScan, hq, hs],
        List.Forall₂.cons (Or.inl rfl) hfill⟩

theorem explodeRounds_fillWith (r : Rocket) (k : Nat) (p : List Particle) (g : Rng) :
    ∃ p1 g1, explodeRounds r k p g = some (p1, g1) ∧ List.Forall₂ (FillWith r) p p1 := by
  induction k generalizing p g with
  | zero => exact ⟨p, g, rfl, fillWith_refl r p⟩
  | succ k ih =>
    obtain ⟨p1, g1, hs, hfill⟩ := explodeScan_fillWith r p g
    obtain ⟨p2, g2, hs2, hfill2⟩ := ih p1 g1
    exact ⟨p2, g2, by simp [explodeRounds, hs, hs2], fillWith_trans r hfill hfill2⟩

/-- C12: `randi(lo, hi)` with `lo ≤ hi` always returns a value in `[lo, hi]`,
and for every rocket, pool and random stream `explode` returns a pool in which
every slot it has activated (inactive before, active after) holds a spark at
the rocket's position, in the rocket's colour, with `vx` and `vy` in `[-3, 3]`
and a time-to-live in `[12, 30]`. -/
theorem explode_spark_fields (r : Rocket) (p : List Particle) (g : Rng) :
    (∀ (lo hi : Int) (g0 : Rng), lo ≤ hi →
      ∃ v g1, randi lo hi g0 = some (v, g1) ∧ lo ≤ v ∧ v ≤ hi) ∧
    ∃ p1 g1, explode r p g = some (p1, g1) ∧
      ∀ (j : Nat) (a b : Particle), p[j]? = some a → p1[j]? = some b →
        a.active = 0 → b.active ≠ 0 →
        b.x = r.x ∧ b.y = r.y ∧ b.color = r.color ∧ -3 ≤ b.vx ∧ b.vx ≤ 3 ∧
          -3 ≤ b.vy ∧ b.vy ≤ 3 ∧ 12 ≤ b.ttl ∧ b.ttl ≤ 30 := by
  constructor
  · intro lo hi g0 h
    obtain ⟨v, hv, h0, h1⟩ := randi_range lo hi g0 h
    exact ⟨v, (rand g0).2, hv, h0, h1⟩
  · obtain ⟨p1, g1, hs, hfill⟩ := explodeRounds_fillWith r 80 p g
    refine ⟨p1, g1, hs, ?_⟩
    intro j a b ha hb ha0 hb1
    obtain ⟨b2, hb2, hab⟩ := Xmas.forall₂_getElem? hfill j a ha
    rw [hb] at hb2
    cases hb2
    rcases hab with rfl | ⟨_, hx, hy, hc, h1, h2, h3, h4, h5, h6, _⟩
    · exact absurd ha0 hb1
    · exact ⟨hx, hy, hc, h1, h2, h3, h4, h5, h6⟩

theorem explode_spark_fields_witness :
    ((-3 : Int) ≤ 3 ∧ ∃ v g1, randi (-3) 3 zeros = some (v, g1) ∧ -3 ≤ v ∧ v ≤ 3) ∧
    ∃ p1 g1 b, explode sampleRocket samplePool zeros = some (p1, g1) ∧
      samplePool[1]? = some freeSlot ∧ p1[1]? = some b ∧ freeSlot.active = 0 ∧ b.active ≠ 0 ∧
      b.x = sampleRocket.x ∧ b.y = sampleRocket.y ∧ b.color = sampleRocket.color ∧
      -3 ≤ b.vx ∧ b.vx ≤ 3 ∧ -3 ≤ b.vy ∧ b.vy ≤ 3 ∧ 12 ≤ b.ttl ∧ b.ttl ≤ 30 := by
  refine ⟨⟨by decide,
    (explode_spark_fields sampleRocket samplePool zeros).1 (-3) 3 zeros (by decide)⟩, ?_⟩
  obtain ⟨p1, g1, hs, hall⟩ := (explode_spark_fields sampleRocket samplePool zeros).2
  have hval : (explode sampleRocket samplePool zeros).map (fun t => t.1) =
      some [liveSpark, Particle.mk 40 12 (-3) (-3) 12 4 1, Particle.mk 40 12 (-3) (-3) 12 4 1] := by
    decide
  rw [hs] at hval
  simp only [Option.map_some', Option.some.injEq] at hval
  subst hval
  exact ⟨_, g1, Particle.mk 40 12 (-3) (-3) 12 4 1, hs, rfl, rfl, rfl, by decide,
    hall 1 freeSlot (Particle.mk 40 12 (-3) (-3) 12 4 1) rfl rfl rfl (by decide)⟩

end Skyline

namespace Xmas

theorem xmas_main_quit_first (rows cols : Int) (g : Rng) (wave : Int → Int → Int → Int)
    (i : Input) (rest : List Input)
    (hq : i.ch = ('q'.toNat : Int) ∨ i.ch = ('Q'.toNat : Int)) :
    main rows cols true g wave (i :: rest) = Outcome.exited 0 [] := by
  obtain ⟨snow, g1, hs, _⟩ :=
    snow_init_some (clampi ((rows * cols).tdiv 80) 60 600).toNat rows cols g
  have hstart : start rows cols true g = some (Start.run
      (Scene.mk rows cols (clampi ((rows * cols).tdiv 80) 60 600) snow 0) g1) := by
    simp [start, hs]
  have hstop := (xmas_frame_stops_iff
    (Scene.mk rows cols (clampi ((rows * cols).tdiv 80) 60 600) snow 0) i wave g1).2 hq
  simp only [main, hstart, loop, hstop]

end Xmas

namespace Skyline

theorem initBuilding_some (i n cols horizon base_h : Int) (mallocOk : Bool) (g : Rng)
    (hn : n + 1 ≠ 0) : ∃ b g1, initBuilding i n cols horizon base_h mallocOk g = some (b, g1) := by
  simp only [initBuilding, cdiv, hn, if_false, randi_of_le (-1) 3 _ (by norm_num),
    randi_of_le (-3) 6 _ (by norm_num), Option.bind_eq_bind, Option.some_bind, Option.pure_def]
  split_ifs <;> exact ⟨_, _, rfl⟩

theorem layoutLoop_some (n cols horizon base_h : Int) (mallocOk : Nat → Bool) (l : List Nat)
    (g : Rng) (hn : n + 1 ≠ 0) :
    ∃ bs g1, layoutLoop n cols horizon base_h mallocOk l g = some (bs, g1) := by
  induction l generalizing g with
  | nil => exact ⟨[], g, rfl⟩
  | cons i rest ih =>
    obtain ⟨b, g1, hb⟩ := initBuilding_some (i : Int) n cols horizon base_h (mallocOk i) g hn
    obtain ⟨bs, g2, hbs⟩ := ih g1
    exact ⟨b :: bs, g2, by simp [layoutLoop, hb, hbs]⟩

theorem initBoats_some (cols : Int) (n : Nat) (g : Rng) (hcols : 0 ≤ cols) :
    ∃ xs g1, initBoats cols n g = some (xs, g1) := by
  induction n generalizing g with
  | zero => exact ⟨[], g, rfl⟩
  | succ n ih =>
    obtain ⟨xs, g2, hxs⟩ := ih (rand g).2
    exact ⟨(0 + (rand g).1.tmod (cols - 0 + 1)) :: xs, g2, by
      simp only [initBoats, randi_of_le 0 cols g hcols, hxs, Option.bind_eq_bind,
        Option.some_bind, Option.pure_def]⟩

theorem skyline_start_some (rows cols : Int) (mallocOk : Nat → Bool) (g : Rng)
    (hcols : 0 ≤ cols) :
    ∃ bs boats s g1, start rows cols mallocOk g = some (bs, boats, s, g1) := by
  obtain ⟨bs, g1, hbs⟩ := layoutLoop_some ((9 : Nat) : Int) cols (horizon_y rows)
    (clampi ((horizon_y rows).tdiv 2) 6 (horizon_y rows - 3)) mallocOk (List.range 9) g
    (by norm_num)
  obtain ⟨boats, g2, hboats⟩ := initBoats_some cols 4 g1 hcols
  refine ⟨bs, boats, Scene.mk rows cols (horizon_y rows) (List.replicate 10 freeRocket)
    (List.replicate 500 freeSlot), g2, ?_⟩
  simp only [start, init_skyline_layout, hbs, hboats, Option.bind_eq_bind, Option.some_bind,
    Option.pure_def]

theorem skyline_loop_quit (s : Scene) (g : Rng) (rest : List Int) (log : List ScreenCall) :
    loop (('q'.toNat : Int) :: rest) s g log = Outcome.exited 0 log := by
  have hstop := (skyline_frame_stops_iff s ('q'.toNat : Int) g).2 rfl
  simp only [loop, hstop]

theorem skyline_main_quit_first (rows cols : Int) (mallocOk : Nat → Bool) (g : Rng)
    (rest : List Int) (hcols : 0 ≤ cols) :
    main rows cols mallocOk g (('q'.toNat : Int) :: rest) = Outcome.exited 0 [] := by
  obtain ⟨bs, boats, s, g1, hstart⟩ := skyline_start_some rows cols mallocOk g hcols
  unfold main
  rw [hstart]
  exact skyline_loop_quit s g1 rest []

end Skyline

namespace Sunset

theorem sunset_frame_quit (s : Scene) (i : Input)
    (hnw : 1 ≤ i.nw) (hnh : 2 ≤ i.nh)
    (hq : i.ch = ('q'.toNat : Int) ∨ i.ch = ('Q'.toNat : Int)) :
    frame s i.nh i.nw i.ch i.g = some Loop.stop := by
  have hkey : quitKey i.ch = true := by
    simpa [quitKey] using hq
  unfold frame
  by_cases hsz : i.nh ≠ s.h ∨ i.nw ≠ s.w
  · obtain ⟨l, hl, _⟩ := seed_stars_in_bounds_of_two_rows i.nw i.nh i.g hnw hnh
    simp [hsz, hl, hkey]
  · simp [hsz, hkey]

theorem sunset_main_quit_first (w h : Int) (g : Rng) (i : Input) (rest : List Input)
    (hw : 1 ≤ w) (hh : 2 ≤ h) (hnw : 1 ≤ i.nw) (hnh : 2 ≤ i.nh)
    (hq : i.ch = ('q'.toNat : Int) ∨ i.ch = ('Q'.toNat : Int)) :
    main w h g (i :: rest) = Outcome.exited 0 passCalls := by
  obtain ⟨l, hl, _⟩ := seed_stars_in_bounds_of_two_rows w h g hw hh
  have hstart : start w h g = some (Scene.mk w h l) := by
    simp [start, hl]
  have hstop := sunset_frame_quit (Scene.mk w h l) i hnw hnh hq
  simp only [main, hstart, loop, hstop, List.nil_append]

end Sunset

/-- C11, at sunset.c on an 80 by 24 terminal with `q` the first key polled:
`main` returns 0, but only after `draw_sky`, `draw_sun`, `draw_moon`,
`draw_stars`, `draw_mountains`, the footer, `overwrite` and `wrefresh` have been
called, so its loop has not exited before any draw call; on the same terminal
and key the loops of xmas.c and skyline_fireworks.c, which poll first, return 0
with no screen call made. -/
theorem sunset_draws_before_first_poll :
    Sunset.main 80 24 Sunset.zeros [Sunset.Input.mk 24 80 ('q'.toNat : Int) Sunset.zeros]
      = Outcome.exited 0 [Sunset.ScreenCall.draw_sky, Sunset.ScreenCall.draw_sun,
          Sunset.ScreenCall.draw_moon, Sunset.ScreenCall.draw_stars,
          Sunset.ScreenCall.draw_mountains, Sunset.ScreenCall.mvwprintw,
          Sunset.ScreenCall.overwrite, Sunset.ScreenCall.wrefresh] ∧
    Sunset.main 80 24 Sunset.zeros [Sunset.Input.mk 24 80 ('q'.toNat : Int) Sunset.zeros]
      ≠ Outcome.exited 0 [] ∧
    Xmas.main 24 80 true Xmas.zeros (fun _ _ _ => 0)
      [Xmas.Input.mk ('q'.toNat : Int) 24 80 true] = Outcome.exited 0 [] ∧
    Skyline.main 24 80 (fun _ => true) Skyline.zeros [('q'.toNat : Int)]
      = Outcome.exited 0 [] := by
  have h := Sunset.sunset_main_quit_first 80 24 Sunset.zeros
    (Sunset.Input.mk 24 80 ('q'.toNat : Int) Sunset.zeros) [] (by decide) (by decide)
    (by decide) (by decide) (Or.inl rfl)
  refine ⟨h, ?_,
    Xmas.xmas_main_quit_first 24 80 Xmas.zeros (fun _ _ _ => 0)
      (Xmas.Input.mk ('q'.toNat : Int) 24 80 true) [] (Or.inl rfl),
    Skyline.skyline_main_quit_first 24 80 (fun _ => true) Skyline.zeros [] (by decide)⟩
  rw [h]
  intro hbad
  injection hbad with _ hlog
  exact absurd hlog (by decide)

end VibeCoding
